import Mathlib

/-
Verification of the discrete-event simulation core of the Tim Hortons
queueing-network model (src/sim/): entities.py, queues.py, stations.py,
network.py, and the import structure of simulation.py.

Shallow embedding conventions:
* Python floats (simulation clock, durations, money) are modelled as ℚ.
* `K` (system capacity) is `Option Nat`: `none` models `math.inf`.
* Python dicts keyed by station name are association lists with unique keys.
* `random.expovariate(rate)` is modelled as `e / rate` where `e` is the next
  value of a stream `es : Nat → ℚ` of unit-exponential samples, consumed
  sequentially through an index carried by the state (one draw per call,
  matching the single sequential generator of the source).
* Jobs flowing through queues are either Item values or references (by oid)
  into an order store, because the source mutates Order objects that are
  simultaneously held by queues, events and item back-references.
* Mutation in place becomes explicit state passing; event scheduling returns
  the list of newly scheduled events, merged into the future event list.
* The future event list is a heap ordered by time only; the embedding pops
  the earliest-time event, first occurrence among ties (the source's
  tie-break among equal times is unspecified, and no theorem below depends
  on a tie).
* `queue_entry_times` / `service_durations` exist on every Item and Order
  (dataclass fields with defaults), so the source's `hasattr` checks are
  always true for the jobs this program creates; the embedding stamps
  unconditionally.
* `in_service`, `ready_items`, `remaining`, `_pending_releases` are ℕ.
  In the source they are Python ints; every path that decrements them is
  guarded (either by the source itself, e.g. `_pending_releases <= 0`, or
  by the event discipline: a departure event exists only for a job whose
  service start incremented `in_service`), so they never go negative in a
  run of the program.
* `sys.t`, `notes`, `admits` and `log` appends: `notes`/`admits` are kept
  newest-first; `log` (a ghost record of service starts, with no effect on
  the dynamics) is kept in chronological order.
-/

namespace Sim

/-- Association-list lookup for the string-keyed Python dicts of the source. -/
def dictGet (d : List (String × ℚ)) (k : String) : Option ℚ :=
  (d.find? (fun p => p.1 = k)).map (fun p => p.2)

/-- `d[k] = v`: replace the value of an existing key, else append the pair. -/
def dictSet (d : List (String × ℚ)) (k : String) (v : ℚ) : List (String × ℚ) :=
  match d with
  | [] => [(k, v)]
  | (k', v') :: rest =>
    if k' = k then (k, v) :: rest else (k', v') :: dictSet rest k v

/-- `d.pop(k, None)`: the value found for `k` (if any) and the dict with that
entry removed. -/
def dictPop (d : List (String × ℚ)) (k : String) : Option ℚ × List (String × ℚ) :=
  match d with
  | [] => (none, [])
  | (k', v') :: rest =>
    if k' = k then (some v', rest)
    else
      let r := dictPop rest k
      (r.1, (k', v') :: r.2)

/-- entities.Customer. -/
structure Customer where
  channel : String
  arrival_time : ℚ
  dine_in : Bool := false
  promised_pickup : Option ℚ := none
  patience : Option ℚ := none
deriving DecidableEq, Repr

/-- entities.Item.  `svc_rate` is `svc_params['rate']` (the only key the
source ever stores or reads); `parent` is the oid of `parent_order`. -/
structure Item where
  kind : String
  svc_rate : Option ℚ := none
  route : List String := []
  price : ℚ := 0
  cogs : ℚ := 0
  queue_entry_times : List (String × ℚ) := []
  service_durations : List (String × ℚ) := []
  parent : Nat := 0
deriving DecidableEq, Repr

/-- entities.Order. -/
structure Order where
  oid : Nat
  customer : Customer
  items : List Item
  t_created : ℚ := 0
  t_ready : Option ℚ := none
  t_packed : Option ℚ := none
  t_picked : Option ℚ := none
  t_seated : Option ℚ := none
  t_left_dine_in : Option ℚ := none
  ready_items : Nat := 0
  queue_entry_times : List (String × ℚ) := []
  service_durations : List (String × ℚ) := []
deriving DecidableEq, Repr

/-- entities.Order.mark_item_ready: increment the counter, report whether all
items are now ready, and stamp `t_ready` when they are. -/
def Order.mark_item_ready (o : Order) (now : ℚ) : Bool × Order :=
  let o' : Order := { o with ready_items := o.ready_items + 1 }
  let all_ready := o'.ready_items = o'.items.length
  if all_ready then (true, { o' with t_ready := some now }) else (false, o')

/-- A job in a queue or an event: an Item value, or a reference into the
order store (Orders are shared mutable state in the source). -/
inductive Job
  | item : Item → Job
  | order : Nat → Job
deriving DecidableEq, Repr

/-- The order store: oid ↦ Order. -/
abbrev OStore := List (Nat × Order)

def storeGet (ost : OStore) (oid : Nat) : Option Order :=
  (ost.find? (fun p => p.1 = oid)).map (fun p => p.2)

def storeSet (ost : OStore) (oid : Nat) (o : Order) : OStore :=
  match ost with
  | [] => [(oid, o)]
  | (k, v) :: rest =>
    if k = oid then (oid, o) :: rest else (k, v) :: storeSet rest oid o

/-- `getattr(job, "customer", None).channel`: Items have no customer
attribute, Orders always carry one. -/
def jobChannel (ost : OStore) (j : Job) : Option String :=
  match j with
  | .item _ => none
  | .order oid => (storeGet ost oid).map (fun o => o.customer.channel)

/-- `job.queue_entry_times[name] = t` (both Item and Order carry the dict). -/
def Job.setQueueEntry (j : Job) (ost : OStore) (name : String) (t : ℚ) :
    Job × OStore :=
  match j with
  | .item it =>
    (.item { it with queue_entry_times := dictSet it.queue_entry_times name t }, ost)
  | .order oid =>
    match storeGet ost oid with
    | none => (j, ost)
    | some o =>
      (j, storeSet ost oid { o with queue_entry_times := dictSet o.queue_entry_times name t })

/-- `job.service_durations[name] = st`. -/
def Job.setDuration (j : Job) (ost : OStore) (name : String) (st : ℚ) :
    Job × OStore :=
  match j with
  | .item it =>
    (.item { it with service_durations := dictSet it.service_durations name st }, ost)
  | .order oid =>
    match storeGet ost oid with
    | none => (j, ost)
    | some o =>
      (j, storeSet ost oid { o with service_durations := dictSet o.service_durations name st })

/-- The two bookkeeping dicts of a job (read-only view). -/
def Job.dicts (j : Job) (ost : OStore) : List (String × ℚ) × List (String × ℚ) :=
  match j with
  | .item it => (it.queue_entry_times, it.service_durations)
  | .order oid =>
    match storeGet ost oid with
    | none => ([], [])
    | some o => (o.queue_entry_times, o.service_durations)

/-- Write both dicts of a job back. -/
def Job.putDicts (j : Job) (ost : OStore)
    (qet sd : List (String × ℚ)) : Job × OStore :=
  match j with
  | .item it => (.item { it with queue_entry_times := qet, service_durations := sd }, ost)
  | .order oid =>
    match storeGet ost oid with
    | none => (j, ost)
    | some o =>
      (j, storeSet ost oid { o with queue_entry_times := qet, service_durations := sd })

/-- Station class tag: queues.Server (base), queues.BatchServer,
stations.PackServer, stations.DineInServer.  Method dispatch on `cls`
mirrors Python's dynamic dispatch (enqueue and on_departure are inherited;
try_start_service is overridden by Batch and Pack; on_departure is
overridden by DineIn). -/
inductive StClass
  | base
  | batch
  | pack
  | dinein
deriving DecidableEq, Repr

/-- The station state: fields of queues.Server plus the subclass fields
(unused fields keep their constructor defaults for other classes).
`service_rate` is the station-level rate of the source; a station whose
rate was never configured (`None`) raises TypeError at the first
`draw_service` call in the source, so the embedding carries the rate. -/
structure Station where
  name : String
  c : Nat := 1
  K : Option Nat := none
  queue : List Job := []
  in_service : Nat := 0
  busy_time : ℚ := 0
  last_change : ℚ := 0
  prev_in_service : Nat := 0
  service_rate : ℚ := 1
  cls : StClass := .base
  batch_size : Nat := 1
  downtime : ℚ := 0
  remaining : Nat := 1
  in_refill : Bool := false
  priority : List String := []
  pending_releases : Nat := 0
  cleaning_server : String := ""
deriving DecidableEq, Repr

/-- queues.Server.__init__. -/
def Server.init (name : String) (c : Nat) (K : Option Nat) (service_rate : ℚ) :
    Station :=
  { name := name, c := c, K := K, service_rate := service_rate }

/-- queues.BatchServer.__init__ (`max(1, int(batch_size))`, `max(0.0, downtime)`). -/
def BatchServer.init (name : String) (c : Nat) (K : Option Nat)
    (service_rate : ℚ) (batch_size : Nat) (downtime : ℚ) : Station :=
  { name := name, c := c, K := K, service_rate := service_rate, cls := .batch,
    batch_size := max 1 batch_size, downtime := max 0 downtime,
    remaining := max 1 batch_size, in_refill := false }

/-- stations.PackServer.__init__ (`priority or []`). -/
def PackServer.init (name : String) (c : Nat) (K : Option Nat)
    (service_rate : ℚ) (priority : List String) : Station :=
  { name := name, c := c, K := K, service_rate := service_rate, cls := .pack,
    priority := priority }

/-- stations.DineInServer.__init__ (the cleaning server is held by name;
in the source it is the object also present in the station map). -/
def DineInServer.init (name : String) (cleaning_server : String) (c : Nat)
    (K : Option Nat) (service_rate : ℚ) : Station :=
  { name := name, c := c, K := K, service_rate := service_rate, cls := .dinein,
    cleaning_server := cleaning_server, pending_releases := 0 }

/-- queues.Event.  `kind` is a free-form string; the extra fields model the
`data` dict (each kind reads only its own fields). -/
structure Ev where
  t : ℚ
  kind : String
  server : String := ""
  job : Option Job := none
  target : String := ""
  timer_kind : String := ""
deriving DecidableEq, Repr

/-- queues.Server.can_join: `len(queue) + in_service < K` (`K = ∞` admits). -/
def Server.can_join (s : Station) : Bool :=
  match s.K with
  | none => true
  | some k => s.queue.length + s.in_service < k

/-- queues.Server._mark_busy: integrate busy server-time as a step function
of `in_service`. -/
def Station.mark_busy (s : Station) (now : ℚ) : Station :=
  let dt := now - s.last_change
  let s :=
    if 0 < dt then { s with busy_time := s.busy_time + (s.prev_in_service : ℚ) * dt }
    else s
  { s with last_change := now, prev_in_service := s.in_service }

@[simp] theorem Station.mark_busy_queue (s : Station) (now : ℚ) :
    (Station.mark_busy s now).queue = s.queue := by
  simp only [Station.mark_busy]
  split <;> rfl

/-- `random.expovariate(rate)` modelled as (unit-exponential sample) / rate. -/
def expovariate (rate : ℚ) (e : ℚ) : ℚ := e / rate

/-- queues.Server.draw_service.  The source sets `rate = None`, leaves the
job-level `svc_params` branch commented out, and then always computes
`rate = 1.0 / self.service_rate`, so the job argument is ignored and the
draw is exponential at the station-level rate only. -/
def Server.draw_service (s : Station) (_job : Job) (e : ℚ) : ℚ :=
  expovariate (1 / s.service_rate) e

/-- queues.Server._extract_wait: pop both per-station entries (the pops
mutate the job even when the result is None), and clamp
`now - st - t_arr` at zero. -/
def Server.extract_wait (ost : OStore) (j : Job) (name : String) (now : ℚ) :
    Option ℚ × Job × OStore :=
  let d := j.dicts ost
  if d.1.isEmpty ∨ d.2.isEmpty then (none, j, ost)
  else
    let p1 := dictPop d.1 name
    let p2 := dictPop d.2 name
    let w : Option ℚ :=
      match p1.1, p2.1 with
      | some t_arr, some st =>
        let wait := now - st - t_arr
        some (if 0 < wait then wait else 0)
      | _, _ => none
    let r := j.putDicts ost p1.2 p2.2
    (w, r.1, r.2)

/-- Result of a station-local operation: the new station state, order store,
newly scheduled events (in scheduling order), next rng index, and the ghost
log of service starts (job, start time). -/
structure StepOut where
  st : Station
  ost : OStore
  evs : List Ev := []
  i : Nat
  log : List (Job × ℚ) := []
deriving DecidableEq, Repr

/-- queues.Server.try_start_service: while the queue is non-empty and
`in_service < c`, pop the head, draw and stamp a service time, increment
`in_service`, update busy accounting and schedule the departure. -/
def Server.try_start_service (s : Station) (ost : OStore) (now : ℚ)
    (es : Nat → ℚ) (i : Nat) : StepOut :=
  match h : s.queue with
  | [] => { st := s, ost := ost, i := i }
  | j :: rest =>
    if s.in_service < s.c then
      let st := Server.draw_service s j (es i)
      let r := j.setDuration ost s.name st
      let s' := Station.mark_busy { s with queue := rest, in_service := s.in_service + 1 } now
      let out := Server.try_start_service s' r.2 now es (i + 1)
      { out with
        evs := { t := now + st, kind := "departure", server := s.name, job := some r.1 } :: out.evs,
        log := (r.1, now) :: out.log }
    else { st := s, ost := ost, i := i }
termination_by s.queue.length
decreasing_by simp [h]

/-- queues.BatchServer._schedule_refill: no-op when a refill is already
pending or `downtime <= 0`; else set the pending flag and schedule the
`refill_done` timer. -/
def BatchServer.schedule_refill (s : Station) (now : ℚ) : Station × List Ev :=
  if s.in_refill ∨ s.downtime ≤ 0 then (s, [])
  else ({ s with in_refill := true },
        [{ t := now + s.downtime, kind := "timer", server := s.name,
           timer_kind := "refill_done" }])

/-- queues.BatchServer.try_start_service: like the base loop, but break when
a refill is pending, schedule a refill and break when the batch is
exhausted, and decrement `remaining` at each start.  (`remaining <= 0` in
the source; `remaining : ℕ` here, see the header.) -/
def BatchServer.try_start_service (s : Station) (ost : OStore) (now : ℚ)
    (es : Nat → ℚ) (i : Nat) : StepOut :=
  match h : s.queue with
  | [] => { st := s, ost := ost, i := i }
  | j :: rest =>
    if s.in_service < s.c then
      if s.in_refill then { st := s, ost := ost, i := i }
      else if s.remaining = 0 then
        let r := BatchServer.schedule_refill s now
        { st := r.1, ost := ost, evs := r.2, i := i }
      else
        let st := Server.draw_service s j (es i)
        let r := j.setDuration ost s.name st
        let s' := Station.mark_busy
          { s with queue := rest, in_service := s.in_service + 1,
                   remaining := s.remaining - 1 } now
        let out := BatchServer.try_start_service s' r.2 now es (i + 1)
        { out with
          evs := { t := now + st, kind := "departure", server := s.name, job := some r.1 } :: out.evs,
          log := (r.1, now) :: out.log }
    else { st := s, ost := ost, i := i }
termination_by s.queue.length
decreasing_by simp [h]

/-- The inner `for idx, job in enumerate(self.queue)` loop of
stations.PackServer._pop_next for one channel: remove the first job whose
customer's channel is `ch` (Items have no customer and never match). -/
def popFirstMatch (ost : OStore) (ch : String) :
    List Job → Option (Job × List Job)
  | [] => none
  | j :: rest =>
    if jobChannel ost j = some ch then some (j, rest)
    else
      match popFirstMatch ost ch rest with
      | some (x, rest') => some (x, j :: rest')
      | none => none

/-- The outer `for ch in self.priority` loop of stations.PackServer._pop_next. -/
def scanPriority (ost : OStore) :
    List String → List Job → Option (Job × List Job)
  | [], _ => none
  | ch :: chs, q =>
    match popFirstMatch ost ch q with
    | some r => some r
    | none => scanPriority ost chs q

/-- stations.PackServer._pop_next: None on an empty queue; plain FIFO when no
priority list is configured; else the first queued job of the earliest
listed channel with a match, falling back to FIFO when nothing matches. -/
def PackServer.pop_next (ost : OStore) (priority : List String) :
    List Job → Option (Job × List Job)
  | [] => none
  | j :: rest =>
    if priority.isEmpty then some (j, rest)
    else
      match scanPriority ost priority (j :: rest) with
      | some r => some r
      | none => some (j, rest)

theorem popFirstMatch_length (ost : OStore) (ch : String) :
    ∀ q j q', popFirstMatch ost ch q = some (j, q') → q'.length + 1 = q.length := by
  intro q
  induction q with
  | nil => intro j q' h; simp [popFirstMatch] at h
  | cons a rest ih =>
    intro j q' h
    simp only [popFirstMatch] at h
    split at h
    · cases h; simp
    · cases hm : popFirstMatch ost ch rest with
      | none => rw [hm] at h; cases h
      | some r =>
        rw [hm] at h
        cases r with
        | mk x rest' =>
          simp only [Option.some.injEq, Prod.mk.injEq] at h
          obtain ⟨hx, hq⟩ := h
          subst hq
          have := ih x rest' hm
          simp [← this]

theorem scanPriority_length (ost : OStore) :
    ∀ pr q j q', scanPriority ost pr q = some (j, q') → q'.length + 1 = q.length := by
  intro pr
  induction pr with
  | nil => intro q j q' h; simp [scanPriority] at h
  | cons ch chs ih =>
    intro q j q' h
    simp only [scanPriority] at h
    cases hm : popFirstMatch ost ch q with
    | none => rw [hm] at h; exact ih q j q' h
    | some r =>
      rw [hm] at h
      cases r with
      | mk x rest' => cases h; exact popFirstMatch_length ost ch q j q' hm

theorem pop_next_length (ost : OStore) (pr : List String) :
    ∀ q j q', PackServer.pop_next ost pr q = some (j, q') → q'.length + 1 = q.length := by
  intro q
  cases q with
  | nil => intro j q' h; simp [PackServer.pop_next] at h
  | cons a rest =>
    intro j q' h
    simp only [PackServer.pop_next] at h
    split at h
    · cases h; simp
    · cases hm : scanPriority ost pr (a :: rest) with
      | none => rw [hm] at h; cases h; simp
      | some r =>
        rw [hm] at h
        cases r with
        | mk x rest' => cases h; exact scanPriority_length ost pr (a :: rest) j q' hm

/-- stations.PackServer.try_start_service: the base loop with `_pop_next`
in place of `queue.pop(0)` (the `job is None` break of the source is
unreachable on a non-empty queue and appears as the `none` arm). -/
def PackServer.try_start_service (s : Station) (ost : OStore) (now : ℚ)
    (es : Nat → ℚ) (i : Nat) : StepOut :=
  match _hq : s.queue with
  | [] => { st := s, ost := ost, i := i }
  | _ :: _ =>
    if s.in_service < s.c then
      match hp : PackServer.pop_next ost s.priority s.queue with
      | none => { st := s, ost := ost, i := i }
      | some (j, rest) =>
        let st := Server.draw_service s j (es i)
        let r := j.setDuration ost s.name st
        let s' := Station.mark_busy { s with queue := rest, in_service := s.in_service + 1 } now
        let out := PackServer.try_start_service s' r.2 now es (i + 1)
        { out with
          evs := { t := now + st, kind := "departure", server := s.name, job := some r.1 } :: out.evs,
          log := (r.1, now) :: out.log }
    else { st := s, ost := ost, i := i }
termination_by s.queue.length
decreasing_by
  simp only [Station.mark_busy_queue]
  have := pop_next_length ost s.priority s.queue j rest hp
  omega

/-- Dynamic dispatch of try_start_service on the station's class
(DineInServer inherits the base loop). -/
def Station.try_start_service (s : Station) (ost : OStore) (now : ℚ)
    (es : Nat → ℚ) (i : Nat) : StepOut :=
  match s.cls with
  | .batch => BatchServer.try_start_service s ost now es i
  | .pack => PackServer.try_start_service s ost now es i
  | _ => Server.try_start_service s ost now es i

/-- queues.Server.enqueue: reject when `can_join()` fails, else stamp the
queue-entry timestamp, append to the FIFO queue and attempt to start
service.  Inherited unchanged by every subclass. -/
def Server.enqueue (s : Station) (ost : OStore) (j : Job) (now : ℚ)
    (es : Nat → ℚ) (i : Nat) : Bool × StepOut :=
  if ¬ Server.can_join s then (false, { st := s, ost := ost, i := i })
  else
    let r := j.setQueueEntry ost s.name now
    let s' := { s with queue := s.queue ++ [r.1] }
    (true, Station.try_start_service s' r.2 now es i)

/-- queues.BatchServer.handle_timer: on `refill_done`, clear the pending
flag, reset the batch and retry service; ignore other timer kinds. -/
def BatchServer.handle_timer (s : Station) (ost : OStore) (kind : String)
    (now : ℚ) (es : Nat → ℚ) (i : Nat) : StepOut :=
  if kind ≠ "refill_done" then { st := s, ost := ost, i := i }
  else
    Station.try_start_service
      { s with in_refill := false, remaining := s.batch_size } ost now es i

/-- The notifications emitted to the metrics collaborator (metrics.Metrics
note_* calls), recorded as a log; arguments mirror the call sites. -/
inductive Note
  | wait (station : String) (job : Job) (w : ℚ) (t : ℚ)
  | block (t : ℚ) (station : String) (job : Job)
  | order_packed (job : Job) (t : ℚ)
  | pickup (job : Job) (w : ℚ) (t : ℚ)
  | pickup_renege (job : Job) (w : ℚ) (t : ℚ)
  | kitchen_entry (job : Job) (t : ℚ)
  | dinein_start (job : Job)
  | dinein_departure (job : Job) (t : ℚ)
deriving DecidableEq, Repr

/-- The whole simulation state: queues.Env (clock `t`, future event list
`fel`, rng position `i` into the sample stream `es`) plus the Router's
station map and order store, the emitted notifications (newest first), a
ghost log `admits` of every Router.on_arrival outcome (newest first), and
the ghost service-start log (chronological).  The two ghost logs have no
effect on the dynamics. -/
structure Sys where
  t : ℚ
  fel : List Ev := []
  i : Nat := 0
  es : Nat → ℚ
  stations : List (String × Station) := []
  orders : OStore := []
  notes : List Note := []
  admits : List (String × Job × Bool) := []
  log : List (Job × ℚ) := []

/-- Station map lookup (`self.S[target]`); `none` models a name that is not
wired into the network, on which the source raises KeyError — no claim
exercises it, and the embedding leaves the state unchanged there. -/
def Sys.getStation (sys : Sys) (name : String) : Option Station :=
  (sys.stations.find? (fun p => p.1 = name)).map (fun p => p.2)

def stationsSet (m : List (String × Station)) (name : String) (st : Station) :
    List (String × Station) :=
  match m with
  | [] => [(name, st)]
  | (k, v) :: rest =>
    if k = name then (name, st) :: rest else (k, v) :: stationsSet rest name st

/-- Fold a station-local StepOut back into the system: update the station,
the order store and the rng index, push the scheduled events onto the FEL
(env.schedule) and append the ghost start log. -/
def Sys.applyOut (sys : Sys) (name : String) (out : StepOut) : Sys :=
  { sys with stations := stationsSet sys.stations name out.st,
             orders := out.ost, fel := sys.fel ++ out.evs, i := out.i,
             log := sys.log ++ out.log }

/-- network.Router.on_arrival: look up the target, enqueue, and report a
block notification when the station is full; returns the outcome.  The
ghost `admits` log records every attempt. -/
def Router.on_arrival (sys : Sys) (j : Job) (target : String) : Bool × Sys :=
  match Sys.getStation sys target with
  | none => (false, sys)
  | some st =>
    let r := Server.enqueue st sys.orders j sys.t sys.es sys.i
    let sys1 := { Sys.applyOut sys target r.2 with
                  admits := (target, j, r.1) :: sys.admits }
    if r.1 then (true, sys1)
    else (false, { sys1 with notes := .block sys1.t target j :: sys1.notes })

/-- stations.DineInServer.release_after_clean: silently return when no
release is pending; else consume one pending release, free one seat,
update busy accounting and try to start the next waiting party. -/
def DineInServer.release_after_clean (sys : Sys) (name : String) : Sys :=
  match Sys.getStation sys name with
  | none => sys
  | some st =>
    if st.pending_releases = 0 then sys
    else
      let st1 := Station.mark_busy
        { st with pending_releases := st.pending_releases - 1,
                  in_service := st.in_service - 1 } sys.t
      let out := Station.try_start_service st1 sys.orders sys.t sys.es sys.i
      Sys.applyOut { sys with stations := stationsSet sys.stations name st1 } name out

/-- network.Router._pickup_renege: only dine-in customers and the mobile
channel renege, only with a finite patience, and only when the pickup wait
strictly exceeds it. -/
def Router.pickup_renege (cust : Customer) (pickup_wait : ℚ) : Bool :=
  if ¬ (cust.dine_in ∨ cust.channel = "mobile") then false
  else
    match cust.patience with
    | none => false
    | some p => pickup_wait > p

/-- network.Router._post_pickup: dine-in patrons try to seize a table when a
dine_in station is wired; on success stamp `t_seated` and notify. -/
def Router.post_pickup (sys : Sys) (oid : Nat) : Sys :=
  match storeGet sys.orders oid with
  | none => sys
  | some o =>
    if o.customer.dine_in ∧ (Sys.getStation sys "dine_in").isSome then
      let r := Router.on_arrival sys (.order oid) "dine_in"
      if r.1 then
        let sys1 := r.2
        match storeGet sys1.orders oid with
        | none => sys1
        | some o1 =>
          { sys1 with
            orders := storeSet sys1.orders oid { o1 with t_seated := some sys1.t },
            notes := .dinein_start (.order oid) :: sys1.notes }
      else r.2
    else sys

/-- network.Router._fanout_items: send each of the order's items to the first
station of its route (setting the parent back-reference), then notify the
kitchen entry.  An empty route raises IndexError in the source (never built
by this program); the embedding skips such an item. -/
def Router.fanout_items (sys : Sys) (oid : Nat) : Sys :=
  match storeGet sys.orders oid with
  | none => sys
  | some o =>
    let sys1 := o.items.foldl
      (fun acc it =>
        match it.route with
        | [] => acc
        | target :: _ => (Router.on_arrival acc (.item { it with parent := oid }) target).2)
      sys
    { sys1 with notes := .kitchen_entry (.order oid) sys1.t :: sys1.notes }

/-- network.Router.advance: dispatch on the departing station's name.
Branches where the source would fault on a job of the wrong shape (an Item
where an Order is required, or vice versa — never produced by this
program) leave the state unchanged. -/
def Router.advance (sys : Sys) (fromName : String) (j : Job) : Sys :=
  if fromName = "espresso" ∨ fromName = "hotfood" ∨ fromName = "beverage" then
    -- mark the parent order's item ready; on the completing item, admit at pack
    match j with
    | .order _ => sys
    | .item it =>
      match storeGet sys.orders it.parent with
      | none => sys
      | some o =>
        let r := Order.mark_item_ready o sys.t
        let sys1 := { sys with orders := storeSet sys.orders it.parent r.2 }
        if r.1 then (Router.on_arrival sys1 (.order it.parent) "pack").2 else sys1
  else if fromName = "pack" then
    -- move the packed order to the shelf; on failure re-enqueue at pack
    match Sys.getStation sys "shelf" with
    | none => sys
    | some shelf =>
      let r := Server.enqueue shelf sys.orders j sys.t sys.es sys.i
      let sys1 := Sys.applyOut sys "shelf" r.2
      if ¬ r.1 then (Router.on_arrival sys1 j "pack").2
      else
        match j with
        | .item _ => sys1
        | .order oid =>
          match storeGet sys1.orders oid with
          | none => sys1
          | some o =>
            { sys1 with
              orders := storeSet sys1.orders oid { o with t_packed := some sys1.t },
              notes := .order_packed j sys1.t :: sys1.notes }
  else if fromName = "shelf" then
    match j with
    | .item _ => sys
    | .order oid =>
      match storeGet sys.orders oid with
      | none => sys
      | some o =>
        let o1 := { o with t_picked := some sys.t }
        let sys1 := { sys with orders := storeSet sys.orders oid o1 }
        let pickup_wait : ℚ :=
          match o1.t_packed with
          | some tp => max (sys1.t - tp) 0
          | none => 0
        if Router.pickup_renege o1.customer pickup_wait then
          { sys1 with notes := .pickup_renege j pickup_wait sys1.t :: sys1.notes }
        else
          Router.post_pickup
            { sys1 with notes := .pickup j pickup_wait sys1.t :: sys1.notes } oid
  else if fromName = "dine_in" then
    match j with
    | .item _ => sys
    | .order oid =>
      match storeGet sys.orders oid with
      | none => sys
      | some o =>
        { sys with
          orders := storeSet sys.orders oid { o with t_left_dine_in := some sys.t },
          notes := .dinein_departure j sys.t :: sys.notes }
  else if fromName = "dine_in_clean" then
    -- getattr(dine_srv, "release_after_clean", None) is callable only on a
    -- DineInServer
    match Sys.getStation sys "dine_in" with
    | none => sys
    | some dine =>
      if dine.cls = .dinein then DineInServer.release_after_clean sys "dine_in" else sys
  else if fromName = "cashier" ∨ fromName = "window" then
    match j with
    | .item _ => sys
    | .order oid => Router.fanout_items sys oid
  else sys

/-- The trailing `self.try_start_service(env)` of queues.Server.on_departure:
re-read the own station state (the Router may have changed it during
advance) and try to start the next queued job. -/
def Server.restart_self (sys : Sys) (name : String) : Sys :=
  match Sys.getStation sys name with
  | none => sys
  | some st =>
    Sys.applyOut sys name (Station.try_start_service st sys.orders sys.t sys.es sys.i)

/-- queues.Server.on_departure: free the service slot, update busy
accounting, extract and emit the wait, delegate to the Router to advance
the job, then try to start the next service on the (possibly advanced)
own state.  Inherited by Batch and Pack servers. -/
def Server.on_departure (sys : Sys) (name : String) (j : Job) : Sys :=
  match Sys.getStation sys name with
  | none => sys
  | some st =>
    let st1 := Station.mark_busy { st with in_service := st.in_service - 1 } sys.t
    let w := Server.extract_wait sys.orders j name sys.t
    let notes1 :=
      match w.1 with
      | some wv => Note.wait name w.2.1 wv sys.t :: sys.notes
      | none => sys.notes
    let sys1 := { sys with stations := stationsSet sys.stations name st1,
                           orders := w.2.2, notes := notes1 }
    Server.restart_self (Router.advance sys1 name w.2.1) name

/-- The cleaning hand-off inside stations.DineInServer.on_departure:
`ok = self.cleaning_server.enqueue(env, job)`, and on failure the block
note and the single best-effort retry. -/
def DineInServer.enqueue_cleaning (sys : Sys) (cn : String) (j : Job) : Sys :=
  match Sys.getStation sys cn with
  | none => sys
  | some cl =>
    let r := Server.enqueue cl sys.orders j sys.t sys.es sys.i
    let sysA := Sys.applyOut sys cn r.2
    if r.1 then sysA
    else
      let sysB := { sysA with notes := .block sysA.t cn j :: sysA.notes }
      match Sys.getStation sysB cn with
      | none => sysB
      | some cl2 =>
        Sys.applyOut sysB cn (Server.enqueue cl2 sysB.orders j sysB.t sysB.es sysB.i).2

/-- `self._pending_releases += 1` of stations.DineInServer.on_departure. -/
def DineInServer.bump_pending (sys : Sys) (name : String) : Sys :=
  match Sys.getStation sys name with
  | none => sys
  | some self =>
    let self1 : Station := { self with pending_releases := self.pending_releases + 1 }
    { sys with stations := stationsSet sys.stations name self1 }

/-- stations.DineInServer.on_departure: emit the wait and advance as usual,
enqueue the vacated table at the cleaning server (logging a block and
retrying once if that fails) and defer the capacity release by bumping the
pending counter — `in_service` is NOT decremented here. -/
def DineInServer.on_departure (sys : Sys) (name : String) (j : Job) : Sys :=
  match Sys.getStation sys name with
  | none => sys
  | some st =>
    let w := Server.extract_wait sys.orders j name sys.t
    let notes1 :=
      match w.1 with
      | some wv => Note.wait name w.2.1 wv sys.t :: sys.notes
      | none => sys.notes
    let sys1 := { sys with orders := w.2.2, notes := notes1 }
    let sys2 := Router.advance sys1 name w.2.1
    DineInServer.bump_pending (DineInServer.enqueue_cleaning sys2 st.cleaning_server w.2.1) name

/-- Dynamic dispatch of `data["server"].on_departure(...)`. -/
def Sys.on_departure (sys : Sys) (name : String) (j : Job) : Sys :=
  match Sys.getStation sys name with
  | none => sys
  | some st =>
    match st.cls with
    | .dinein => DineInServer.on_departure sys name j
    | _ => Server.on_departure sys name j

/-- network.Router.on_timer: forward to the station's handle_timer when it
has one (only BatchServer does). -/
def Router.on_timer (sys : Sys) (name : String) (kind : String) : Sys :=
  match Sys.getStation sys name with
  | none => sys
  | some st =>
    if st.cls = .batch then
      Sys.applyOut sys name (BatchServer.handle_timer st sys.orders kind sys.t sys.es sys.i)
    else sys

/-- queues.Env.run_until dispatch: arrival → Router.on_arrival, departure →
the owning station's on_departure, timer → Router.on_timer.  Any other
kind falls through all three branches and the loop continues. -/
def Sys.dispatch (sys : Sys) (ev : Ev) : Sys :=
  if ev.kind = "arrival" then
    match ev.job with
    | none => sys
    | some j => (Router.on_arrival sys j ev.target).2
  else if ev.kind = "departure" then
    match ev.job with
    | none => sys
    | some j => Sys.on_departure sys ev.server j
  else if ev.kind = "timer" then Router.on_timer sys ev.server ev.timer_kind
  else sys

/-- heapq.heappop on the FEL: the earliest-time event (first occurrence
among equal times; the source's tie-break is unspecified). -/
def popMin : List Ev → Option (Ev × List Ev)
  | [] => none
  | e :: rest =>
    match popMin rest with
    | none => some (e, [])
    | some (m, rest') => if m.t < e.t then some (m, e :: rest') else some (e, rest)

/-- One iteration of the queues.Env.run_until loop body: pop the earliest
event, advance the clock to its time and dispatch it. -/
def Sys.step (sys : Sys) : Sys :=
  match popMin sys.fel with
  | none => sys
  | some (ev, rest) => Sys.dispatch { sys with t := ev.t, fel := rest } ev

/-- queues.Env.run_until with an explicit iteration bound: while the FEL is
non-empty and `t <= T_end`, pop and dispatch.  With `fuel` at least the
number of loop iterations this is exactly the source's loop. -/
def Sys.run (fuel : Nat) (T_end : ℚ) (sys : Sys) : Sys :=
  match fuel with
  | 0 => sys
  | n + 1 =>
    if sys.fel ≠ [] ∧ sys.t ≤ T_end then Sys.run n T_end (Sys.step sys) else sys

/-- The name-resolution interface of the sim package modules relevant to
loading stations.py.  `queues_module_attrs` is the complete list of
top-level names bound in src/sim/queues.py (its classes, its own imports
and the __future__ flag): the attributes `from sim.queues import ...` can
resolve. -/
def queues_module_attrs : List String :=
  ["annotations", "heapq", "math", "random", "Any", "List", "Optional",
   "Event", "Env", "Server", "BatchServer"]

/-- The names stations.py line 21 imports from .queues:
`from .queues import Server, BatchServer, PickupServer, Event`. -/
def stations_imports_from_queues : List String :=
  ["Server", "BatchServer", "PickupServer", "Event"]

/-- Loading src/sim/stations.py: resolving its import list against the
attributes of queues.py; the first unresolvable name raises ImportError
before any further top-level statement of the module runs. -/
def import_stations_module : Except String Unit :=
  match stations_imports_from_queues.find? (fun n => ¬ queues_module_attrs.contains n) with
  | some missing => .error missing
  | none => .ok ()

/-- Loading src/sim/simulation.py (the module defining the entry point
run_one_day): its line `from .stations import make_stations` loads
stations.py first, so it fails exactly when `import_stations_module`
does — before any `run_one_day` call can build a single station, router
or event. -/
def import_simulation_module : Except String Unit :=
  import_stations_module

/- ------------------------------------------------------------------ -/
/- Helper lemmas shared by the claim theorems.                         -/
/- ------------------------------------------------------------------ -/

/-- The total occupancy of a station: `len(queue) + in_service`. -/
def Station.load (s : Station) : Nat := s.queue.length + s.in_service

@[simp] theorem mark_busy_in_service (s : Station) (now : ℚ) :
    (Station.mark_busy s now).in_service = s.in_service := by
  simp only [Station.mark_busy]; split <;> rfl

@[simp] theorem mark_busy_K (s : Station) (now : ℚ) :
    (Station.mark_busy s now).K = s.K := by
  simp only [Station.mark_busy]; split <;> rfl

@[simp] theorem mark_busy_c (s : Station) (now : ℚ) :
    (Station.mark_busy s now).c = s.c := by
  simp only [Station.mark_busy]; split <;> rfl

@[simp] theorem mark_busy_cls (s : Station) (now : ℚ) :
    (Station.mark_busy s now).cls = s.cls := by
  simp only [Station.mark_busy]; split <;> rfl

@[simp] theorem mark_busy_name (s : Station) (now : ℚ) :
    (Station.mark_busy s now).name = s.name := by
  simp only [Station.mark_busy]; split <;> rfl

@[simp] theorem mark_busy_priority (s : Station) (now : ℚ) :
    (Station.mark_busy s now).priority = s.priority := by
  simp only [Station.mark_busy]; split <;> rfl

@[simp] theorem mark_busy_remaining (s : Station) (now : ℚ) :
    (Station.mark_busy s now).remaining = s.remaining := by
  simp only [Station.mark_busy]; split <;> rfl

@[simp] theorem mark_busy_in_refill (s : Station) (now : ℚ) :
    (Station.mark_busy s now).in_refill = s.in_refill := by
  simp only [Station.mark_busy]; split <;> rfl

@[simp] theorem mark_busy_pending_releases (s : Station) (now : ℚ) :
    (Station.mark_busy s now).pending_releases = s.pending_releases := by
  simp only [Station.mark_busy]; split <;> rfl

@[simp] theorem mark_busy_batch_size (s : Station) (now : ℚ) :
    (Station.mark_busy s now).batch_size = s.batch_size := by
  simp only [Station.mark_busy]; split <;> rfl

@[simp] theorem mark_busy_downtime (s : Station) (now : ℚ) :
    (Station.mark_busy s now).downtime = s.downtime := by
  simp only [Station.mark_busy]; split <;> rfl

@[simp] theorem mark_busy_service_rate (s : Station) (now : ℚ) :
    (Station.mark_busy s now).service_rate = s.service_rate := by
  simp only [Station.mark_busy]; split <;> rfl

theorem tss_eq_nil (s : Station) (ost : OStore) (now : ℚ) (es : Nat → ℚ) (i : Nat)
    (h : s.queue = []) :
    Server.try_start_service s ost now es i = { st := s, ost := ost, i := i } := by
  rw [Server.try_start_service]
  split
  · rfl
  · rename_i j rest heq
    rw [h] at heq
    cases heq

theorem tss_eq_cons (s : Station) (ost : OStore) (now : ℚ) (es : Nat → ℚ) (i : Nat)
    (j : Job) (rest : List Job) (h : s.queue = j :: rest) :
    Server.try_start_service s ost now es i =
      (if s.in_service < s.c then
        (let st := Server.draw_service s j (es i)
         let r := j.setDuration ost s.name st
         let s' := Station.mark_busy { s with queue := rest, in_service := s.in_service + 1 } now
         let out := Server.try_start_service s' r.2 now es (i + 1)
         { out with
           evs := { t := now + st, kind := "departure", server := s.name, job := some r.1 } :: out.evs,
           log := (r.1, now) :: out.log })
      else { st := s, ost := ost, i := i }) := by
  conv_lhs => rw [Server.try_start_service]
  split
  · rename_i heq
    rw [h] at heq
    cases heq
  · rename_i j' rest' heq
    rw [h] at heq
    injection heq with h1 h2
    subst h1
    subst h2
    rfl

/-- The base service-start loop only moves queued jobs into service: the
total occupancy, the capacity bound and the classification fields are
unchanged. -/
theorem tss_base_preserves (s : Station) (ost : OStore) (now : ℚ) (es : Nat → ℚ) (i : Nat) :
    (Server.try_start_service s ost now es i).st.load = s.load ∧
    (Server.try_start_service s ost now es i).st.K = s.K ∧
    (Server.try_start_service s ost now es i).st.cls = s.cls := by
  generalize hn : s.queue.length = n
  induction n using Nat.strong_induction_on generalizing s ost now i with
  | _ n IH =>
    cases hq : s.queue with
    | nil =>
      rw [tss_eq_nil s ost now es i hq]
      exact ⟨rfl, rfl, rfl⟩
    | cons j rest =>
      rw [tss_eq_cons s ost now es i j rest hq]
      by_cases hc : s.in_service < s.c
      · rw [if_pos hc]
        dsimp only
        have hlen : rest.length < n := by
          rw [← hn, hq]
          simp
        have hih := IH rest.length hlen
          (Station.mark_busy { s with queue := rest, in_service := s.in_service + 1 } now)
          (j.setDuration ost s.name (Server.draw_service s j (es i))).2 now (i + 1)
          (by simp)
        refine ⟨?_, ?_, ?_⟩
        · rw [hih.1]
          simp [Station.load, hq]
          omega
        · rw [hih.2.1]
          simp
        · rw [hih.2.2]
          simp
      · rw [if_neg hc]
        exact ⟨rfl, rfl, rfl⟩

theorem batch_tss_eq_nil (s : Station) (ost : OStore) (now : ℚ) (es : Nat → ℚ) (i : Nat)
    (h : s.queue = []) :
    BatchServer.try_start_service s ost now es i = { st := s, ost := ost, i := i } := by
  rw [BatchServer.try_start_service]
  split
  · rfl
  · rename_i j rest heq
    rw [h] at heq
    cases heq

theorem batch_tss_eq_cons (s : Station) (ost : OStore) (now : ℚ) (es : Nat → ℚ) (i : Nat)
    (j : Job) (rest : List Job) (h : s.queue = j :: rest) :
    BatchServer.try_start_service s ost now es i =
      (if s.in_service < s.c then
        (if s.in_refill then { st := s, ost := ost, i := i }
         else if s.remaining = 0 then
           (let r := BatchServer.schedule_refill s now
            { st := r.1, ost := ost, evs := r.2, i := i })
         else
           (let st := Server.draw_service s j (es i)
            let r := j.setDuration ost s.name st
            let s' := Station.mark_busy
              { s with queue := rest, in_service := s.in_service + 1,
                       remaining := s.remaining - 1 } now
            let out := BatchServer.try_start_service s' r.2 now es (i + 1)
            { out with
              evs := { t := now + st, kind := "departure", server := s.name, job := some r.1 } :: out.evs,
              log := (r.1, now) :: out.log }))
      else { st := s, ost := ost, i := i }) := by
  conv_lhs => rw [BatchServer.try_start_service]
  split
  · rename_i heq
    rw [h] at heq
    cases heq
  · rename_i j' rest' heq
    rw [h] at heq
    injection heq with h1 h2
    subst h1
    subst h2
    rfl

/-- The batch loop also only moves queued jobs into service (or flips the
refill flag), and every service start (one ghost-log entry each)
decrements `remaining` by exactly one. -/
theorem tss_batch_preserves (s : Station) (ost : OStore) (now : ℚ) (es : Nat → ℚ) (i : Nat) :
    (BatchServer.try_start_service s ost now es i).st.load = s.load ∧
    (BatchServer.try_start_service s ost now es i).st.K = s.K ∧
    (BatchServer.try_start_service s ost now es i).st.cls = s.cls ∧
    (BatchServer.try_start_service s ost now es i).st.remaining +
      (BatchServer.try_start_service s ost now es i).log.length = s.remaining := by
  generalize hn : s.queue.length = n
  induction n using Nat.strong_induction_on generalizing s ost now i with
  | _ n IH =>
    cases hq : s.queue with
    | nil =>
      rw [batch_tss_eq_nil s ost now es i hq]
      exact ⟨rfl, rfl, rfl, rfl⟩
    | cons j rest =>
      rw [batch_tss_eq_cons s ost now es i j rest hq]
      by_cases hc : s.in_service < s.c
      · rw [if_pos hc]
        by_cases hr : s.in_refill
        · rw [if_pos hr]
          exact ⟨rfl, rfl, rfl, rfl⟩
        · rw [if_neg hr]
          by_cases hz : s.remaining = 0
          · rw [if_pos hz]
            dsimp only
            simp only [BatchServer.schedule_refill]
            split
            · exact ⟨rfl, rfl, rfl, by simp [hz]⟩
            · exact ⟨rfl, rfl, rfl, by simp [hz]⟩
          · rw [if_neg hz]
            dsimp only
            have hlen : rest.length < n := by
              rw [← hn, hq]
              simp
            have hih := IH rest.length hlen
              (Station.mark_busy
                { s with queue := rest, in_service := s.in_service + 1,
                         remaining := s.remaining - 1 } now)
              (j.setDuration ost s.name (Server.draw_service s j (es i))).2 now (i + 1)
              (by simp)
            refine ⟨?_, ?_, ?_, ?_⟩
            · rw [hih.1]
              simp [Station.load, hq]
              omega
            · rw [hih.2.1]
              simp
            · rw [hih.2.2.1]
              simp
            · have h4 := hih.2.2.2
              simp only [mark_busy_remaining] at h4
              simp only [List.length_cons]
              omega
      · rw [if_neg hc]
        exact ⟨rfl, rfl, rfl, rfl⟩

theorem pack_tss_eq_nil (s : Station) (ost : OStore) (now : ℚ) (es : Nat → ℚ) (i : Nat)
    (h : s.queue = []) :
    PackServer.try_start_service s ost now es i = { st := s, ost := ost, i := i } := by
  rw [PackServer.try_start_service]
  split
  · rfl
  · rename_i j rest heq
    rw [h] at heq
    cases heq

theorem pack_tss_eq_full (s : Station) (ost : OStore) (now : ℚ) (es : Nat → ℚ) (i : Nat)
    (hc : ¬ s.in_service < s.c) :
    PackServer.try_start_service s ost now es i = { st := s, ost := ost, i := i } := by
  rw [PackServer.try_start_service]
  split
  · rfl
  · rw [if_neg hc]

theorem pack_tss_eq_some (s : Station) (ost : OStore) (now : ℚ) (es : Nat → ℚ) (i : Nat)
    (a : Job) (rest0 : List Job) (h : s.queue = a :: rest0)
    (hc : s.in_service < s.c) (j : Job) (rest : List Job)
    (hp : PackServer.pop_next ost s.priority s.queue = some (j, rest)) :
    PackServer.try_start_service s ost now es i =
      (let st := Server.draw_service s j (es i)
       let r := j.setDuration ost s.name st
       let s' := Station.mark_busy { s with queue := rest, in_service := s.in_service + 1 } now
       let out := PackServer.try_start_service s' r.2 now es (i + 1)
       { out with
         evs := { t := now + st, kind := "departure", server := s.name, job := some r.1 } :: out.evs,
         log := (r.1, now) :: out.log }) := by
  conv_lhs => rw [PackServer.try_start_service]
  split
  · rename_i heq
    rw [h] at heq
    cases heq
  · rw [if_pos hc]
    split
    · rename_i hp'
      rw [hp] at hp'
      cases hp'
    · rename_i j' rest' hp'
      rw [hp] at hp'
      injection hp' with h1
      injection h1 with h2 h3
      subst h2
      subst h3
      rfl

theorem pop_next_cons_isSome (ost : OStore) (pr : List String) (a : Job) (rest0 : List Job) :
    (PackServer.pop_next ost pr (a :: rest0)).isSome := by
  simp only [PackServer.pop_next]
  split
  · simp
  · cases scanPriority ost pr (a :: rest0) <;> simp

/-- The priority loop also only moves queued jobs into service. -/
theorem tss_pack_preserves (s : Station) (ost : OStore) (now : ℚ) (es : Nat → ℚ) (i : Nat) :
    (PackServer.try_start_service s ost now es i).st.load = s.load ∧
    (PackServer.try_start_service s ost now es i).st.K = s.K ∧
    (PackServer.try_start_service s ost now es i).st.cls = s.cls := by
  generalize hn : s.queue.length = n
  induction n using Nat.strong_induction_on generalizing s ost now i with
  | _ n IH =>
    cases hq : s.queue with
    | nil =>
      rw [pack_tss_eq_nil s ost now es i hq]
      exact ⟨rfl, rfl, rfl⟩
    | cons a rest0 =>
      by_cases hc : s.in_service < s.c
      · have hsome : (PackServer.pop_next ost s.priority s.queue).isSome := by
          rw [hq]
          exact pop_next_cons_isSome ost s.priority a rest0
        obtain ⟨p, hp⟩ := Option.isSome_iff_exists.mp hsome
        obtain ⟨j, rest⟩ := p
        rw [pack_tss_eq_some s ost now es i a rest0 hq hc j rest hp]
        dsimp only
        have hplen := pop_next_length ost s.priority s.queue j rest hp
        have hlen : rest.length < n := by
          rw [← hn]
          omega
        have hih := IH rest.length hlen
          (Station.mark_busy { s with queue := rest, in_service := s.in_service + 1 } now)
          (j.setDuration ost s.name (Server.draw_service s j (es i))).2 now (i + 1)
          (by simp)
        refine ⟨?_, ?_, ?_⟩
        · rw [hih.1]
          simp only [Station.load, Station.mark_busy_queue, mark_busy_in_service]
          rw [hq] at hplen
          simp only [List.length_cons] at hplen
          rw [hq]
          simp only [List.length_cons]
          omega
        · rw [hih.2.1]
          simp
        · rw [hih.2.2]
          simp
      · rw [pack_tss_eq_full s ost now es i hc]
        exact ⟨rfl, rfl, rfl⟩

/-- Consequence for the class dispatcher: try_start_service of every station
class preserves total occupancy, capacity and class. -/
theorem tss_preserves (s : Station) (ost : OStore) (now : ℚ) (es : Nat → ℚ) (i : Nat) :
    (Station.try_start_service s ost now es i).st.load = s.load ∧
    (Station.try_start_service s ost now es i).st.K = s.K ∧
    (Station.try_start_service s ost now es i).st.cls = s.cls := by
  cases h : s.cls with
  | base =>
    simp only [Station.try_start_service, h]
    exact ⟨(tss_base_preserves s ost now es i).1, (tss_base_preserves s ost now es i).2.1,
      ((tss_base_preserves s ost now es i).2.2).trans h⟩
  | batch =>
    simp only [Station.try_start_service, h]
    exact ⟨(tss_batch_preserves s ost now es i).1, (tss_batch_preserves s ost now es i).2.1,
      ((tss_batch_preserves s ost now es i).2.2.1).trans h⟩
  | pack =>
    simp only [Station.try_start_service, h]
    exact ⟨(tss_pack_preserves s ost now es i).1, (tss_pack_preserves s ost now es i).2.1,
      ((tss_pack_preserves s ost now es i).2.2).trans h⟩
  | dinein =>
    simp only [Station.try_start_service, h]
    exact ⟨(tss_base_preserves s ost now es i).1, (tss_base_preserves s ost now es i).2.1,
      ((tss_base_preserves s ost now es i).2.2).trans h⟩

theorem enqueue_fst (s : Station) (ost : OStore) (j : Job) (now : ℚ) (es : Nat → ℚ) (i : Nat) :
    (Server.enqueue s ost j now es i).1 = Server.can_join s := by
  by_cases h : Server.can_join s <;> simp [Server.enqueue, h]

theorem enqueue_false (s : Station) (ost : OStore) (j : Job) (now : ℚ) (es : Nat → ℚ) (i : Nat)
    (h : Server.can_join s = false) :
    (Server.enqueue s ost j now es i).2 = { st := s, ost := ost, i := i } := by
  simp [Server.enqueue, h]

theorem enqueue_true (s : Station) (ost : OStore) (j : Job) (now : ℚ) (es : Nat → ℚ) (i : Nat)
    (h : Server.can_join s = true) :
    (Server.enqueue s ost j now es i).2 =
      Station.try_start_service
        { s with queue := s.queue ++ [(j.setQueueEntry ost s.name now).1] }
        (j.setQueueEntry ost s.name now).2 now es i := by
  simp [Server.enqueue, h]

theorem can_join_iff_lt (s : Station) (k : Nat) (hK : s.K = some k) :
    Server.can_join s = true ↔ s.load < k := by
  simp [Server.can_join, hK, Station.load]

theorem enqueue_load_true (s : Station) (ost : OStore) (j : Job) (now : ℚ) (es : Nat → ℚ) (i : Nat)
    (h : Server.can_join s = true) :
    (Server.enqueue s ost j now es i).2.st.load = s.load + 1 ∧
    (Server.enqueue s ost j now es i).2.st.K = s.K := by
  rw [enqueue_true s ost j now es i h]
  constructor
  · rw [(tss_preserves _ _ _ _ _).1]
    simp [Station.load]
    omega
  · rw [(tss_preserves _ _ _ _ _).2.1]

/-- One station-local state change of a station and the order store, as
performed by the source's handlers (each handler is a composition of
these): `accept` is Server.enqueue (inherited by every class); `start` is
(the class's) try_start_service; `complete` is the station-local prefix of
Server.on_departure (free a slot, update busy accounting, pop the job's
bookkeeping) — its guard records that a departure event only exists for a
job in service; `complete_dinein` is the station-local effect of
DineInServer.on_departure (bookkeeping pop and pending-release increment,
no slot freed); `release` is DineInServer.release_after_clean (the guard,
from the source, is its `<= 0` early return, plus in-service positivity
when a release is pending, which the pairing discipline guarantees);
`timer` is BatchServer.handle_timer. -/
inductive StationStep : Station × OStore → Station × OStore → Prop
  | accept (p : Station × OStore) (j : Job) (now : ℚ) (es : Nat → ℚ) (i : Nat) :
      StationStep p ((Server.enqueue p.1 p.2 j now es i).2.st,
                     (Server.enqueue p.1 p.2 j now es i).2.ost)
  | start (p : Station × OStore) (now : ℚ) (es : Nat → ℚ) (i : Nat) :
      StationStep p ((Station.try_start_service p.1 p.2 now es i).st,
                     (Station.try_start_service p.1 p.2 now es i).ost)
  | complete (p : Station × OStore) (j : Job) (now : ℚ) (h : 0 < p.1.in_service) :
      StationStep p (Station.mark_busy { p.1 with in_service := p.1.in_service - 1 } now,
                     (Server.extract_wait p.2 j p.1.name now).2.2)
  | complete_dinein (p : Station × OStore) (j : Job) (now : ℚ) :
      StationStep p ({ p.1 with pending_releases := p.1.pending_releases + 1 },
                     (Server.extract_wait p.2 j p.1.name now).2.2)
  | release (p : Station × OStore) (now : ℚ) (es : Nat → ℚ) (i : Nat)
      (h : p.1.pending_releases = 0 ∨ 0 < p.1.in_service) :
      StationStep p
        (if p.1.pending_releases = 0 then p
         else
           (let st1 := Station.mark_busy
              { p.1 with pending_releases := p.1.pending_releases - 1,
                         in_service := p.1.in_service - 1 } now
            let out := Station.try_start_service st1 p.2 now es i
            (out.st, out.ost)))
  | timer (p : Station × OStore) (kind : String) (now : ℚ) (es : Nat → ℚ) (i : Nat) :
      StationStep p ((BatchServer.handle_timer p.1 p.2 kind now es i).st,
                     (BatchServer.handle_timer p.1 p.2 kind now es i).ost)

theorem handle_timer_preserves (s : Station) (ost : OStore) (kind : String)
    (now : ℚ) (es : Nat → ℚ) (i : Nat) :
    (BatchServer.handle_timer s ost kind now es i).st.load = s.load ∧
    (BatchServer.handle_timer s ost kind now es i).st.K = s.K := by
  by_cases h : kind = "refill_done"
  · simp only [BatchServer.handle_timer, h]
    simp only [ne_eq, not_true_eq_false, if_false]
    constructor
    · rw [(tss_preserves _ _ _ _ _).1]
      simp [Station.load]
    · rw [(tss_preserves _ _ _ _ _).2.1]
  · simp [BatchServer.handle_timer, h]

/-- Every station-local step keeps the capacity bound `K` and never pushes
the occupancy above an already-respected `K`. -/
theorem stationStep_inv (k : Nat) (p q : Station × OStore) (hs : StationStep p q)
    (hK : p.1.K = some k) (hload : p.1.load ≤ k) :
    q.1.K = some k ∧ q.1.load ≤ k := by
  cases hs with
  | accept j now es i =>
    by_cases h : Server.can_join p.1
    · have := enqueue_load_true p.1 p.2 j now es i h
      refine ⟨by rw [this.2, hK], ?_⟩
      rw [this.1]
      have := (can_join_iff_lt p.1 k hK).mp h
      omega
    · rw [enqueue_false p.1 p.2 j now es i (by simpa using h)]
      exact ⟨hK, hload⟩
  | start now es i =>
    refine ⟨by rw [(tss_preserves _ _ _ _ _).2.1, hK], ?_⟩
    rw [(tss_preserves _ _ _ _ _).1]
    exact hload
  | complete j now h =>
    refine ⟨by simp [hK], ?_⟩
    simp only [Station.load, Station.mark_busy_queue, mark_busy_in_service]
    simp only [Station.load] at hload
    omega
  | complete_dinein j now =>
    exact ⟨hK, hload⟩
  | release now es i h =>
    by_cases hz : p.1.pending_releases = 0
    · simp only [hz, if_pos]
      exact ⟨hK, hload⟩
    · rw [if_neg hz]
      dsimp only
      refine ⟨by rw [(tss_preserves _ _ _ _ _).2.1]; simp [hK], ?_⟩
      rw [(tss_preserves _ _ _ _ _).1]
      simp only [Station.load, Station.mark_busy_queue, mark_busy_in_service]
      simp only [Station.load] at hload
      omega
  | timer kind now es i =>
    refine ⟨by rw [(handle_timer_preserves _ _ _ _ _ _).2, hK], ?_⟩
    rw [(handle_timer_preserves _ _ _ _ _ _).1]
    exact hload

/-- A burst of admissions: feed the jobs one after another through
Server.enqueue (as Router.on_arrival does for each arrival event),
counting the admissions that succeed. -/
def burst (s : Station) (ost : OStore) (js : List Job) (now : ℚ)
    (es : Nat → ℚ) (i : Nat) : Nat × StepOut :=
  match js with
  | [] => (0, { st := s, ost := ost, i := i })
  | j :: rest =>
    let r := Server.enqueue s ost j now es i
    let b := burst r.2.st r.2.ost rest now es r.2.i
    ((if r.1 then 1 else 0) + b.1, b.2)

theorem burst_count (js : List Job) :
    ∀ (s : Station) (ost : OStore) (now : ℚ) (es : Nat → ℚ) (i : Nat) (k : Nat),
      s.K = some k → (burst s ost js now es i).1 = min js.length (k - s.load) := by
  induction js with
  | nil =>
    intro s ost now es i k hK
    simp [burst]
  | cons j rest ih =>
    intro s ost now es i k hK
    by_cases h : Server.can_join s
    · have hlt := (can_join_iff_lt s k hK).mp h
      have hload := enqueue_load_true s ost j now es i h
      have hfst : (Server.enqueue s ost j now es i).1 = true := by
        rw [enqueue_fst]
        exact h
      simp only [burst]
      rw [hfst, ih _ _ now es _ k (by rw [hload.2, hK]), hload.1]
      simp only [List.length_cons, if_true]
      omega
    · have hge : ¬ s.load < k := fun hc => h ((can_join_iff_lt s k hK).mpr hc)
      have hfst : (Server.enqueue s ost j now es i).1 = false := by
        rw [enqueue_fst]
        simpa using h
      simp only [burst]
      rw [hfst, enqueue_false s ost j now es i (by simpa using h)]
      rw [ih s ost now es i k hK]
      simp only [List.length_cons, Bool.false_eq_true, if_false]
      omega

theorem on_arrival_block (sys : Sys) (j : Job) (target : String) (st : Station)
    (h : Sys.getStation sys target = some st) (hcj : Server.can_join st = false) :
    (Router.on_arrival sys j target).1 = false ∧
    (Router.on_arrival sys j target).2.notes = .block sys.t target j :: sys.notes := by
  simp only [Router.on_arrival, h]
  have hfst : (Server.enqueue st sys.orders j sys.t sys.es sys.i).1 = false := by
    rw [enqueue_fst]
    exact hcj
  rw [hfst]
  exact ⟨rfl, rfl⟩

/-- C1.  For every station class, `len(queue) + in_service ≤ K` holds in
every state reachable from a freshly constructed station by the source's
handler operations; `enqueue` returns `can_join()` — true exactly when
`len(queue) + in_service < K` held at the call — leaving the station and
store untouched (no event scheduled, no start) when false, and appending
the stamped job then attempting service starts when true; a burst of `m`
admissions into a fresh station of capacity `K = k` admits exactly
`min m k` of them (so exactly `k` of a burst exceeding `k`), and every
failed admission through Router.on_arrival is reported as a block
notification. -/
theorem c1_capacity_invariant_admission_and_blocking :
    (∀ (k : Nat) (p q : Station × OStore),
      p.1.K = some k → p.1.queue = [] → p.1.in_service = 0 →
      Relation.ReflTransGen StationStep p q → q.1.load ≤ k) ∧
    (∀ (s : Station) (ost : OStore) (j : Job) (now : ℚ) (es : Nat → ℚ) (i : Nat),
      (Server.enqueue s ost j now es i).1 = Server.can_join s) ∧
    (∀ (s : Station) (ost : OStore) (j : Job) (now : ℚ) (es : Nat → ℚ) (i : Nat),
      Server.can_join s = false →
      (Server.enqueue s ost j now es i).2 = { st := s, ost := ost, i := i }) ∧
    (∀ (s : Station) (ost : OStore) (j : Job) (now : ℚ) (es : Nat → ℚ) (i : Nat),
      Server.can_join s = true →
      (Server.enqueue s ost j now es i).2 =
        Station.try_start_service
          { s with queue := s.queue ++ [(j.setQueueEntry ost s.name now).1] }
          (j.setQueueEntry ost s.name now).2 now es i) ∧
    (∀ (k : Nat) (js : List Job) (s : Station) (ost : OStore) (now : ℚ)
        (es : Nat → ℚ) (i : Nat),
      s.K = some k → s.queue = [] → s.in_service = 0 →
      (burst s ost js now es i).1 = min js.length k) ∧
    (∀ (sys : Sys) (j : Job) (target : String) (st : Station),
      Sys.getStation sys target = some st → Server.can_join st = false →
      (Router.on_arrival sys j target).1 = false ∧
      (Router.on_arrival sys j target).2.notes = .block sys.t target j :: sys.notes) := by
  refine ⟨?_, enqueue_fst, enqueue_false, enqueue_true, ?_, on_arrival_block⟩
  · intro k p q hK hq hs hreach
    have hinv : q.1.K = some k ∧ q.1.load ≤ k := by
      induction hreach with
      | refl =>
        refine ⟨hK, ?_⟩
        simp [Station.load, hq, hs]
      | tail _ hstep ih =>
        exact stationStep_inv k _ _ hstep ih.1 ih.2
    exact hinv.2
  · intro k js s ost now es i hK hq hs
    rw [burst_count js s ost now es i k hK]
    have : s.load = 0 := by simp [Station.load, hq, hs]
    rw [this]
    simp

/-- Closed instantiation of C1: a fresh K=2 station after one admission, a
full K=0 station rejecting unchanged, a burst of three admissions into the
K=2 station admitting exactly two, and a block note on a failed
Router.on_arrival. -/
theorem c1_capacity_invariant_admission_and_blocking_witness :
    (((Server.enqueue (Server.init "s" 1 (some 2) 1) [] (.item { kind := "beverage" }) 0
        (fun _ => 1) 0).2.st,
      (Server.enqueue (Server.init "s" 1 (some 2) 1) [] (.item { kind := "beverage" }) 0
        (fun _ => 1) 0).2.ost).1.load ≤ 2) ∧
    ((Server.enqueue (Server.init "s" 1 (some 0) 1) [] (.item { kind := "beverage" }) 0
        (fun _ => 1) 0).2 =
      { st := Server.init "s" 1 (some 0) 1, ost := [], i := 0 }) ∧
    ((burst (Server.init "s" 1 (some 2) 1) []
        [.item { kind := "beverage" }, .item { kind := "beverage" }, .item { kind := "beverage" }]
        0 (fun _ => 1) 0).1 = min 3 2) ∧
    ((Router.on_arrival
        { t := 0, es := fun _ => 1, stations := [("x", Server.init "x" 1 (some 0) 1)] }
        (.item { kind := "beverage" }) "x").1 = false ∧
     (Router.on_arrival
        { t := 0, es := fun _ => 1, stations := [("x", Server.init "x" 1 (some 0) 1)] }
        (.item { kind := "beverage" }) "x").2.notes =
       .block 0 "x" (.item { kind := "beverage" }) :: []) := by
  refine ⟨?_, ?_, ?_, ?_⟩
  · exact c1_capacity_invariant_admission_and_blocking.1 2
      (Server.init "s" 1 (some 2) 1, []) _ rfl rfl rfl
      (Relation.ReflTransGen.single
        (StationStep.accept (Server.init "s" 1 (some 2) 1, [])
          (.item { kind := "beverage" }) 0 (fun _ => 1) 0))
  · exact c1_capacity_invariant_admission_and_blocking.2.2.1
      (Server.init "s" 1 (some 0) 1) [] (.item { kind := "beverage" }) 0 (fun _ => 1) 0
      (by decide)
  · exact c1_capacity_invariant_admission_and_blocking.2.2.2.2.1 2
      [.item { kind := "beverage" }, .item { kind := "beverage" }, .item { kind := "beverage" }]
      (Server.init "s" 1 (some 2) 1) [] 0 (fun _ => 1) 0 rfl rfl rfl
  · exact c1_capacity_invariant_admission_and_blocking.2.2.2.2.2
      { t := 0, es := fun _ => 1, stations := [("x", Server.init "x" 1 (some 0) 1)] }
      (.item { kind := "beverage" }) "x" (Server.init "x" 1 (some 0) 1) rfl (by decide)

/- ------------------------------------------------------------------ -/
/- C2: join synchronization at the pack station.                       -/
/- ------------------------------------------------------------------ -/

theorem storeGet_storeSet_self (ost : OStore) (oid : Nat) (o : Order) :
    storeGet (storeSet ost oid o) oid = some o := by
  induction ost with
  | nil => simp [storeGet, storeSet, List.find?]
  | cons p rest ih =>
    cases p with
    | mk k v =>
      by_cases h : k = oid
      · simp [storeGet, storeSet, h, List.find?]
      · simp only [storeSet, if_neg h]
        simpa [storeGet, List.find?, h] using ih

theorem storeGet_storeSet_other (ost : OStore) (oid oid' : Nat) (o : Order)
    (h : oid' ≠ oid) :
    storeGet (storeSet ost oid o) oid' = storeGet ost oid' := by
  induction ost with
  | nil => simp [storeGet, storeSet, List.find?, Ne.symm h]
  | cons p rest ih =>
    cases p with
    | mk k v =>
      by_cases hk : k = oid
      · subst hk
        simp [storeGet, storeSet, List.find?, Ne.symm h]
      · simp only [storeSet, if_neg hk]
        by_cases hk' : k = oid'
        · simp [storeGet, List.find?, hk']
        · simpa [storeGet, List.find?, hk'] using ih

/-- The join-relevant view of an order: its ready counter and item count. -/
def readyOf (ost : OStore) (oid : Nat) : Option (Nat × Nat) :=
  (storeGet ost oid).map (fun o => (o.ready_items, o.items.length))

theorem readyOf_setQueueEntry (j : Job) (ost : OStore) (name : String) (t : ℚ) (oid : Nat) :
    readyOf (Job.setQueueEntry j ost name t).2 oid = readyOf ost oid := by
  cases j with
  | item it => rfl
  | order oid2 =>
    simp only [Job.setQueueEntry]
    cases h : storeGet ost oid2 with
    | none => rfl
    | some o =>
      by_cases he : oid = oid2
      · subst he
        simp [readyOf, storeGet_storeSet_self, h]
      · simp [readyOf, storeGet_storeSet_other _ _ _ _ he]

theorem readyOf_setDuration (j : Job) (ost : OStore) (name : String) (st : ℚ) (oid : Nat) :
    readyOf (Job.setDuration j ost name st).2 oid = readyOf ost oid := by
  cases j with
  | item it => rfl
  | order oid2 =>
    simp only [Job.setDuration]
    cases h : storeGet ost oid2 with
    | none => rfl
    | some o =>
      by_cases he : oid = oid2
      · subst he
        simp [readyOf, storeGet_storeSet_self, h]
      · simp [readyOf, storeGet_storeSet_other _ _ _ _ he]

theorem readyOf_tss_base (s : Station) (ost : OStore) (now : ℚ) (es : Nat → ℚ)
    (i : Nat) (oid : Nat) :
    readyOf (Server.try_start_service s ost now es i).ost oid = readyOf ost oid := by
  generalize hn : s.queue.length = n
  induction n using Nat.strong_induction_on generalizing s ost now i with
  | _ n IH =>
    cases hq : s.queue with
    | nil =>
      rw [tss_eq_nil s ost now es i hq]
    | cons j rest =>
      rw [tss_eq_cons s ost now es i j rest hq]
      by_cases hc : s.in_service < s.c
      · rw [if_pos hc]
        dsimp only
        have hlen : rest.length < n := by
          rw [← hn, hq]
          simp
        rw [IH rest.length hlen _ _ now (i + 1) (by simp)]
        exact readyOf_setDuration j ost s.name _ oid
      · rw [if_neg hc]


theorem readyOf_tss_batch (s : Station) (ost : OStore) (now : ℚ) (es : Nat → ℚ)
    (i : Nat) (oid : Nat) :
    readyOf (BatchServer.try_start_service s ost now es i).ost oid = readyOf ost oid := by
  generalize hn : s.queue.length = n
  induction n using Nat.strong_induction_on generalizing s ost now i with
  | _ n IH =>
    cases hq : s.queue with
    | nil =>
      rw [batch_tss_eq_nil s ost now es i hq]
    | cons j rest =>
      rw [batch_tss_eq_cons s ost now es i j rest hq]
      by_cases hc : s.in_service < s.c
      · rw [if_pos hc]
        by_cases hr : s.in_refill
        · rw [if_pos hr]
        · rw [if_neg hr]
          by_cases hz : s.remaining = 0
          · rw [if_pos hz]
          · rw [if_neg hz]
            dsimp only
            have hlen : rest.length < n := by
              rw [← hn, hq]
              simp
            rw [IH rest.length hlen _ _ now (i + 1) (by simp)]
            exact readyOf_setDuration j ost s.name _ oid
      · rw [if_neg hc]

theorem readyOf_tss_pack (s : Station) (ost : OStore) (now : ℚ) (es : Nat → ℚ)
    (i : Nat) (oid : Nat) :
    readyOf (PackServer.try_start_service s ost now es i).ost oid = readyOf ost oid := by
  generalize hn : s.queue.length = n
  induction n using Nat.strong_induction_on generalizing s ost now i with
  | _ n IH =>
    cases hq : s.queue with
    | nil =>
      rw [pack_tss_eq_nil s ost now es i hq]
    | cons a rest0 =>
      by_cases hc : s.in_service < s.c
      · have hsome : (PackServer.pop_next ost s.priority s.queue).isSome := by
          rw [hq]
          exact pop_next_cons_isSome ost s.priority a rest0
        obtain ⟨p, hp⟩ := Option.isSome_iff_exists.mp hsome
        obtain ⟨j, rest⟩ := p
        rw [pack_tss_eq_some s ost now es i a rest0 hq hc j rest hp]
        dsimp only
        have hplen := pop_next_length ost s.priority s.queue j rest hp
        have hlen : rest.length < n := by
          rw [← hn]
          omega
        rw [IH rest.length hlen _ _ now (i + 1) (by simp)]
        exact readyOf_setDuration j ost s.name _ oid
      · rw [pack_tss_eq_full s ost now es i hc]

theorem readyOf_tss (s : Station) (ost : OStore) (now : ℚ) (es : Nat → ℚ)
    (i : Nat) (oid : Nat) :
    readyOf (Station.try_start_service s ost now es i).ost oid = readyOf ost oid := by
  cases h : s.cls with
  | base =>
    simp only [Station.try_start_service, h]
    exact readyOf_tss_base s ost now es i oid
  | batch =>
    simp only [Station.try_start_service, h]
    exact readyOf_tss_batch s ost now es i oid
  | pack =>
    simp only [Station.try_start_service, h]
    exact readyOf_tss_pack s ost now es i oid
  | dinein =>
    simp only [Station.try_start_service, h]
    exact readyOf_tss_base s ost now es i oid

theorem readyOf_enqueue (s : Station) (ost : OStore) (j : Job) (now : ℚ)
    (es : Nat → ℚ) (i : Nat) (oid : Nat) :
    readyOf (Server.enqueue s ost j now es i).2.ost oid = readyOf ost oid := by
  by_cases h : Server.can_join s
  · rw [enqueue_true s ost j now es i h]
    rw [readyOf_tss]
    exact readyOf_setQueueEntry j ost s.name now oid
  · rw [enqueue_false s ost j now es i (by simpa using h)]

theorem stations_find_set_self (m : List (String × Station)) (name : String) (st : Station) :
    ((stationsSet m name st).find? (fun p => p.1 = name)).map (fun p => p.2) = some st := by
  induction m with
  | nil => simp [stationsSet, List.find?]
  | cons p rest ih =>
    cases p with
    | mk k v =>
      by_cases h : k = name
      · simp [stationsSet, h, List.find?]
      · simp only [stationsSet, if_neg h]
        simpa [List.find?, h] using ih

theorem stations_find_set_other (m : List (String × Station)) (name name' : String)
    (st : Station) (h : name' ≠ name) :
    ((stationsSet m name st).find? (fun p => p.1 = name')).map (fun p => p.2) =
    (m.find? (fun p => p.1 = name')).map (fun p => p.2) := by
  induction m with
  | nil => simp [stationsSet, List.find?, Ne.symm h]
  | cons p rest ih =>
    cases p with
    | mk k v =>
      by_cases hk : k = name
      · subst hk
        simp [stationsSet, List.find?, Ne.symm h]
      · simp only [stationsSet, if_neg hk]
        by_cases hk' : k = name'
        · simp [List.find?, hk']
        · simpa [List.find?, hk'] using ih

theorem readyOf_on_arrival (sys : Sys) (j : Job) (target : String) (oid : Nat) :
    readyOf (Router.on_arrival sys j target).2.orders oid = readyOf sys.orders oid := by
  simp only [Router.on_arrival]
  cases h : Sys.getStation sys target with
  | none => rfl
  | some st =>
    dsimp only
    split <;> exact readyOf_enqueue st sys.orders j sys.t sys.es sys.i oid

theorem on_arrival_station_isSome (sys : Sys) (j : Job) (target name : String)
    (h : (Sys.getStation sys name).isSome) :
    (Sys.getStation (Router.on_arrival sys j target).2 name).isSome := by
  simp only [Router.on_arrival]
  cases ht : Sys.getStation sys target with
  | none => exact h
  | some st =>
    dsimp only
    by_cases hn : name = target
    · subst hn
      split <;>
        simp [Sys.getStation, Sys.applyOut, stations_find_set_self]
    · have hother := stations_find_set_other sys.stations target name
        (Server.enqueue st sys.orders j sys.t sys.es sys.i).2.st hn
      split <;>
        · simp only [Sys.getStation, Sys.applyOut] at h ⊢
          rw [hother]
          exact h

/-- Number of admissions of the given order attempted so far at the pack
station (entries of the ghost on_arrival log). -/
def countPackAdmits (oid : Nat) (sys : Sys) : Nat :=
  (sys.admits.filter (fun a => a.1 = "pack" ∧ a.2.1 = Job.order oid)).length

theorem countPackAdmits_on_arrival_pack (sys : Sys) (oid : Nat)
    (h : (Sys.getStation sys "pack").isSome) :
    countPackAdmits oid (Router.on_arrival sys (.order oid) "pack").2 =
      countPackAdmits oid sys + 1 := by
  obtain ⟨st, hst⟩ := Option.isSome_iff_exists.mp h
  simp only [Router.on_arrival, hst]
  split <;>
    simp [countPackAdmits, Sys.applyOut, List.filter]

/-- A single Router.advance call from a kitchen station: the parent order's
ready counter goes up by one, a pack admission is attempted exactly when
the counter reaches the item count, and the pack station stays wired. -/
theorem advance_kitchen_effects (sys : Sys) (name : String) (it : Item)
    (oid r n : Nat)
    (hname : name = "espresso" ∨ name = "hotfood" ∨ name = "beverage")
    (hpar : it.parent = oid)
    (hro : readyOf sys.orders oid = some (r, n))
    (hpack : (Sys.getStation sys "pack").isSome) :
    readyOf (Router.advance sys name (.item it)).orders oid = some (r + 1, n) ∧
    countPackAdmits oid (Router.advance sys name (.item it)) =
      countPackAdmits oid sys + (if r + 1 = n then 1 else 0) ∧
    (Sys.getStation (Router.advance sys name (.item it)) "pack").isSome := by
  obtain ⟨o, ho, hr, hn⟩ : ∃ o, storeGet sys.orders oid = some o ∧
      o.ready_items = r ∧ o.items.length = n := by
    simp only [readyOf] at hro
    cases hget : storeGet sys.orders oid with
    | none => rw [hget] at hro; cases hro
    | some o =>
      rw [hget] at hro
      simp at hro
      exact ⟨o, rfl, hro.1, hro.2⟩
  simp only [Router.advance, if_pos hname]
  rw [hpar, ho]
  simp only [Order.mark_item_ready]
  by_cases htrig : o.ready_items + 1 = o.items.length
  · rw [if_pos htrig]
    simp only [reduceIte]
    have hreadyset : readyOf
        (storeSet sys.orders oid
          { o with ready_items := o.ready_items + 1, t_ready := some sys.t }) oid =
        some (r + 1, n) := by
      simp [readyOf, storeGet_storeSet_self, hr, hn]
    refine ⟨?_, ?_, ?_⟩
    · rw [readyOf_on_arrival]
      exact hreadyset
    · rw [countPackAdmits_on_arrival_pack _ oid]
      · have h1 : r + 1 = n := by omega
        simp [h1, countPackAdmits]
      · exact hpack
    · exact on_arrival_station_isSome _ _ _ _ hpack
  · rw [if_neg htrig]
    simp only [reduceIte]
    refine ⟨?_, ?_, hpack⟩
    · simp [readyOf, storeGet_storeSet_self, hr, hn]
    · have : ¬ r + 1 = n := by omega
      simp [this, countPackAdmits]

/-- Iterated kitchen completions of items of the same parent order
(Router.advance from a kitchen station once per item completion). -/
def kitchenAdvances (name : String) (it : Item) : Nat → Sys → Sys
  | 0, sys => sys
  | m + 1, sys => kitchenAdvances name it m (Router.advance sys name (.item it))

theorem kitchenAdvances_count (name : String) (it : Item) (oid : Nat)
    (hname : name = "espresso" ∨ name = "hotfood" ∨ name = "beverage")
    (hpar : it.parent = oid) :
    ∀ (m : Nat) (sys : Sys) (r n : Nat),
      readyOf sys.orders oid = some (r, n) →
      (Sys.getStation sys "pack").isSome →
      countPackAdmits oid (kitchenAdvances name it m sys) =
        countPackAdmits oid sys + (if r < n ∧ n ≤ r + m then 1 else 0) := by
  intro m
  induction m with
  | zero =>
    intro sys r n hro hpack
    have : ¬ (r < n ∧ n ≤ r + 0) := by omega
    simp [kitchenAdvances, this]
  | succ m ih =>
    intro sys r n hro hpack
    have heff := advance_kitchen_effects sys name it oid r n hname hpar hro hpack
    simp only [kitchenAdvances]
    rw [ih (Router.advance sys name (.item it)) (r + 1) n heff.1 heff.2.2, heff.2.1]
    by_cases h1 : r + 1 = n
    · have hA : ¬ (r + 1 < n ∧ n ≤ r + 1 + m) := by omega
      have hB : r < n ∧ n ≤ r + (m + 1) := by omega
      simp [h1, hA, hB]
    · by_cases h2 : r + 1 < n ∧ n ≤ r + 1 + m
      · have hB : r < n ∧ n ≤ r + (m + 1) := by omega
        simp [h1, h2, hB]
      · have hB : ¬ (r < n ∧ n ≤ r + (m + 1)) := by omega
        simp [h1, h2, hB]

/-- C2.  A kitchen-station departure of an item marks the parent order's
ready counter (always incrementing it by one), and attempts the pack
admission exactly when the counter reaches the item count; over any run of
`m` kitchen completions of an order that starts with no item ready and
`n ≥ 1` items, the order is admitted at the pack station exactly once when
`m ≥ n` (at the n-th completion) and never when `m < n`. -/
theorem c2_join_synchronization (name : String) (it : Item) (oid : Nat)
    (sys : Sys) (r n m : Nat)
    (hname : name = "espresso" ∨ name = "hotfood" ∨ name = "beverage")
    (hpar : it.parent = oid)
    (hro : readyOf sys.orders oid = some (r, n))
    (hpack : (Sys.getStation sys "pack").isSome) :
    (readyOf (Router.advance sys name (.item it)).orders oid = some (r + 1, n) ∧
     countPackAdmits oid (Router.advance sys name (.item it)) =
       countPackAdmits oid sys + (if r + 1 = n then 1 else 0)) ∧
    (r = 0 → 1 ≤ n →
      countPackAdmits oid (kitchenAdvances name it m sys) =
        countPackAdmits oid sys + (if n ≤ m then 1 else 0)) := by
  have heff := advance_kitchen_effects sys name it oid r n hname hpar hro hpack
  refine ⟨⟨heff.1, heff.2.1⟩, ?_⟩
  intro hr0 hn1
  subst hr0
  rw [kitchenAdvances_count name it oid hname hpar m sys 0 n hro hpack]
  by_cases h : n ≤ m
  · have : 0 < n ∧ n ≤ 0 + m := by omega
    simp [h, this]
  · have : ¬ (0 < n ∧ n ≤ 0 + m) := by omega
    simp [h, this]

/-- A concrete three-item order for exercising the join logic. -/
def c2Item (k : String) : Item := { kind := k, parent := 1 }

def c2Order : Order :=
  { oid := 1,
    customer := { channel := "walkin", arrival_time := 0 },
    items := [c2Item "espresso", c2Item "hotfood", c2Item "beverage"] }

def c2Sys : Sys :=
  { t := 0, es := fun _ => 1,
    stations := [("espresso", Server.init "espresso" 1 none 1),
                 ("pack", PackServer.init "pack" 1 none 1 [])],
    orders := [(1, c2Order)] }

/- Helper lemmas for the two-phase-release development: order references
flow unchanged through the bookkeeping mutations. -/

theorem extract_wait_order_fst (ost : OStore) (oid : Nat) (name : String) (now : ℚ) :
    (Server.extract_wait ost (.order oid) name now).2.1 = .order oid := by
  simp only [Server.extract_wait]
  split
  · rfl
  · simp only [Job.putDicts]
    split <;> rfl

theorem setQueueEntry_order_fst (oid : Nat) (ost : OStore) (n : String) (t : ℚ) :
    (Job.setQueueEntry (.order oid) ost n t).1 = .order oid := by
  simp only [Job.setQueueEntry]
  split <;> rfl

theorem setDuration_order_fst (oid : Nat) (ost : OStore) (n : String) (st : ℚ) :
    (Job.setDuration (.order oid) ost n st).1 = .order oid := by
  simp only [Job.setDuration]
  split <;> rfl

theorem getStation_congr (sys sys' : Sys) (n : String) (h : sys.stations = sys'.stations) :
    Sys.getStation sys n = Sys.getStation sys' n := by
  simp only [Sys.getStation, h]

/-- Router.advance from the dine_in station only stamps the order and emits a
notification: stations, FEL, clock, rng and ghost log are untouched. -/
theorem advance_dinein_frame (sys : Sys) (j : Job) :
    (Router.advance sys "dine_in" j).stations = sys.stations ∧
    (Router.advance sys "dine_in" j).fel = sys.fel ∧
    (Router.advance sys "dine_in" j).log = sys.log ∧
    (Router.advance sys "dine_in" j).t = sys.t ∧
    (Router.advance sys "dine_in" j).i = sys.i ∧
    (Router.advance sys "dine_in" j).es = sys.es := by
  simp only [Router.advance, String.reduceEq, or_self, or_false, false_or, if_false, reduceIte]
  cases j with
  | item it => exact ⟨rfl, rfl, rfl, rfl, rfl, rfl⟩
  | order oid =>
    dsimp only
    cases h : storeGet sys.orders oid with
    | none => exact ⟨rfl, rfl, rfl, rfl, rfl, rfl⟩
    | some o => exact ⟨rfl, rfl, rfl, rfl, rfl, rfl⟩

theorem tss_dispatch_base (s : Station) (ost : OStore) (now : ℚ) (es : Nat → ℚ)
    (i : Nat) (h : s.cls = StClass.base) :
    Station.try_start_service s ost now es i = Server.try_start_service s ost now es i := by
  simp only [Station.try_start_service, h]

theorem tss_dispatch_dinein (s : Station) (ost : OStore) (now : ℚ) (es : Nat → ℚ)
    (i : Nat) (h : s.cls = StClass.dinein) :
    Station.try_start_service s ost now es i = Server.try_start_service s ost now es i := by
  simp only [Station.try_start_service, h]

theorem tss_dispatch_batch (s : Station) (ost : OStore) (now : ℚ) (es : Nat → ℚ)
    (i : Nat) (h : s.cls = StClass.batch) :
    Station.try_start_service s ost now es i = BatchServer.try_start_service s ost now es i := by
  simp only [Station.try_start_service, h]

theorem tss_dispatch_pack (s : Station) (ost : OStore) (now : ℚ) (es : Nat → ℚ)
    (i : Nat) (h : s.cls = StClass.pack) :
    Station.try_start_service s ost now es i = PackServer.try_start_service s ost now es i := by
  simp only [Station.try_start_service, h]

/-- Enqueueing the cleaning job on an idle cleaning station with free
capacity: the job is admitted and started immediately, its departure is
scheduled one cleaning-service-time later, and its start is logged now. -/
theorem enqueue_cleaning_idle (sys : Sys) (cn : String) (cl : Station) (o1 : Nat)
    (hcl : Sys.getStation sys cn = some cl)
    (hname : cl.name = cn)
    (hclcls : cl.cls = StClass.base)
    (hclq : cl.queue = []) (hcls0 : cl.in_service = 0) (hclc : 0 < cl.c)
    (hclK : cl.K = none) :
    DineInServer.enqueue_cleaning sys cn (.order o1) =
      { sys with
        stations := stationsSet sys.stations cn
          (Station.mark_busy { cl with queue := [], in_service := cl.in_service + 1 } sys.t),
        orders := (Job.setDuration (.order o1)
          (Job.setQueueEntry (.order o1) sys.orders cn sys.t).2 cn
          (expovariate (1 / cl.service_rate) (sys.es sys.i))).2,
        fel := sys.fel ++
          [{ t := sys.t + expovariate (1 / cl.service_rate) (sys.es sys.i),
             kind := "departure", server := cn, job := some (.order o1) }],
        i := sys.i + 1,
        log := sys.log ++ [(.order o1, sys.t)] } := by
  have hcj : Server.can_join cl = true := by
    simp [Server.can_join, hclK]
  simp only [DineInServer.enqueue_cleaning, hcl]
  rw [Server.enqueue]
  simp only [hcj, not_true_eq_false, if_false, reduceIte]
  rw [setQueueEntry_order_fst]
  rw [tss_dispatch_base _ _ _ _ _ (by exact hclcls)]
  rw [tss_eq_cons _ _ _ _ _ (Job.order o1) [] (by simp [hclq])]
  rw [if_pos (by simpa [hcls0] using hclc)]
  dsimp only
  rw [tss_eq_nil _ _ _ _ _ (by simp)]
  rw [setDuration_order_fst]
  simp only [Sys.applyOut, Server.draw_service, hname, hclq]

theorem advance_dinein_stations (sys : Sys) (j : Job) :
    (Router.advance sys "dine_in" j).stations = sys.stations :=
  (advance_dinein_frame sys j).1

theorem advance_dinein_fel (sys : Sys) (j : Job) :
    (Router.advance sys "dine_in" j).fel = sys.fel :=
  (advance_dinein_frame sys j).2.1

theorem advance_dinein_log (sys : Sys) (j : Job) :
    (Router.advance sys "dine_in" j).log = sys.log :=
  (advance_dinein_frame sys j).2.2.1

theorem advance_dinein_t (sys : Sys) (j : Job) :
    (Router.advance sys "dine_in" j).t = sys.t :=
  (advance_dinein_frame sys j).2.2.2.1

theorem advance_dinein_i (sys : Sys) (j : Job) :
    (Router.advance sys "dine_in" j).i = sys.i :=
  (advance_dinein_frame sys j).2.2.2.2.1

theorem advance_dinein_es (sys : Sys) (j : Job) :
    (Router.advance sys "dine_in" j).es = sys.es :=
  (advance_dinein_frame sys j).2.2.2.2.2

def Station.bump (st : Station) : Station :=
  { st with pending_releases := st.pending_releases + 1 }

theorem bump_pending_eq (sys : Sys) (name : String) (st : Station)
    (h : Sys.getStation sys name = some st) :
    DineInServer.bump_pending sys name =
      { sys with stations := stationsSet sys.stations name st.bump } := by
  simp only [DineInServer.bump_pending, h, Station.bump]

theorem dinein_departure_effects (sys : Sys) (dine cl : Station) (o1 : Nat)
    (hdine : Sys.getStation sys "dine_in" = some dine)
    (hclname : dine.cleaning_server = "dine_in_clean")
    (hcl : Sys.getStation sys "dine_in_clean" = some cl)
    (hname : cl.name = "dine_in_clean")
    (hclcls : cl.cls = StClass.base)
    (hclq : cl.queue = []) (hcls0 : cl.in_service = 0) (hclc : 0 < cl.c)
    (hclK : cl.K = none) :
    (DineInServer.on_departure sys "dine_in" (.order o1)).fel = sys.fel ++
      [{ t := sys.t + expovariate (1 / cl.service_rate) (sys.es sys.i),
         kind := "departure", server := "dine_in_clean", job := some (.order o1) }] ∧
    (DineInServer.on_departure sys "dine_in" (.order o1)).log =
      sys.log ++ [(.order o1, sys.t)] ∧
    (DineInServer.on_departure sys "dine_in" (.order o1)).t = sys.t ∧
    (DineInServer.on_departure sys "dine_in" (.order o1)).es = sys.es ∧
    (DineInServer.on_departure sys "dine_in" (.order o1)).i = sys.i + 1 ∧
    Sys.getStation (DineInServer.on_departure sys "dine_in" (.order o1)) "dine_in" =
      some dine.bump ∧
    Sys.getStation (DineInServer.on_departure sys "dine_in" (.order o1))
        "dine_in_clean" =
      some (Station.mark_busy { cl with queue := [], in_service := cl.in_service + 1 } sys.t) := by
  have hne1 : ("dine_in_clean" : String) ≠ "dine_in" := by decide
  have hne2 : ("dine_in" : String) ≠ "dine_in_clean" := by decide
  simp only [DineInServer.on_departure, hdine, extract_wait_order_fst, hclname]
  rw [enqueue_cleaning_idle _ _ cl o1 ?side1 hname hclcls hclq hcls0 hclc hclK]
  case side1 =>
    simp only [Sys.getStation, advance_dinein_stations]
    simpa only [Sys.getStation] using hcl
  rw [bump_pending_eq _ _ dine ?side2]
  case side2 =>
    simp only [Sys.getStation]
    rw [stations_find_set_other _ _ _ _ hne2]
    rw [advance_dinein_stations]
    simpa only [Sys.getStation] using hdine
  simp only [advance_dinein_stations, advance_dinein_fel, advance_dinein_log,
    advance_dinein_t, advance_dinein_i, advance_dinein_es]
  refine ⟨trivial, trivial, trivial, trivial, trivial, ?_, ?_⟩
  · simp only [Sys.getStation]
    rw [stations_find_set_self]
  · simp only [Sys.getStation]
    rw [stations_find_set_other _ _ _ _ hne1, stations_find_set_self]


/-- C3 part (b), positive case: release_after_clean with a pending release
consumes it, frees one seat and immediately starts the waiting party. -/
theorem release_after_clean_starts (sys : Sys) (dine : Station) (o2 : Nat)
    (hdine : Sys.getStation sys "dine_in" = some dine)
    (hdcls : dine.cls = StClass.dinein)
    (hp : dine.pending_releases = 1)
    (hq : dine.queue = [.order o2])
    (hs : dine.in_service = 1) (hc : dine.c = 1) :
    (DineInServer.release_after_clean sys "dine_in").log =
      sys.log ++ [(.order o2, sys.t)] ∧
    (DineInServer.release_after_clean sys "dine_in").fel = sys.fel ++
      [{ t := sys.t + expovariate (1 / dine.service_rate) (sys.es sys.i),
         kind := "departure", server := dine.name, job := some (.order o2) }] ∧
    (DineInServer.release_after_clean sys "dine_in").t = sys.t ∧
    (DineInServer.release_after_clean sys "dine_in").es = sys.es ∧
    (DineInServer.release_after_clean sys "dine_in").i = sys.i + 1 ∧
    (∀ n, n ≠ "dine_in" →
      Sys.getStation (DineInServer.release_after_clean sys "dine_in") n =
        Sys.getStation sys n) := by
  simp only [DineInServer.release_after_clean, hdine, hp, reduceIte]
  rw [if_neg (one_ne_zero)]
  rw [tss_dispatch_dinein _ _ _ _ _ (by simpa using hdcls)]
  rw [tss_eq_cons _ _ _ _ _ (Job.order o2) [] (by simp [hq])]
  rw [if_pos ?hcond]
  case hcond => simp [hs, hc]
  dsimp only
  rw [tss_eq_nil _ _ _ _ _ (by simp)]
  rw [setDuration_order_fst]
  simp only [Sys.applyOut, Server.draw_service, mark_busy_service_rate, mark_busy_name]
  refine ⟨trivial, trivial, trivial, trivial, trivial, ?_⟩
  intro n hn
  simp only [Sys.getStation]
  rw [stations_find_set_other _ _ _ _ hn, stations_find_set_other _ _ _ _ hn]


theorem tss_empty_queue (s : Station) (ost : OStore) (now : ℚ) (es : Nat → ℚ)
    (i : Nat) (h : s.queue = []) :
    Station.try_start_service s ost now es i = { st := s, ost := ost, i := i } := by
  cases hc : s.cls with
  | base => rw [tss_dispatch_base _ _ _ _ _ hc, tss_eq_nil _ _ _ _ _ h]
  | batch => rw [tss_dispatch_batch _ _ _ _ _ hc, batch_tss_eq_nil _ _ _ _ _ h]
  | pack => rw [tss_dispatch_pack _ _ _ _ _ hc, pack_tss_eq_nil _ _ _ _ _ h]
  | dinein => rw [tss_dispatch_dinein _ _ _ _ _ hc, tss_eq_nil _ _ _ _ _ h]

theorem restart_self_log (sys : Sys) (name : String)
    (h : ∀ st, Sys.getStation sys name = some st → st.queue = []) :
    (Server.restart_self sys name).log = sys.log := by
  simp only [Server.restart_self]
  cases hst : Sys.getStation sys name with
  | none => rfl
  | some st =>
    dsimp only
    rw [tss_empty_queue _ _ _ _ _ (h st hst)]
    simp [Sys.applyOut]

/-- Router.advance from the cleaning station is exactly the seating
station's release callback (when the dine_in station is a DineInServer). -/
theorem advance_clean_eq (sys : Sys) (j : Job) (dine : Station)
    (h : Sys.getStation sys "dine_in" = some dine)
    (hcls : dine.cls = StClass.dinein) :
    Router.advance sys "dine_in_clean" j =
      DineInServer.release_after_clean sys "dine_in" := by
  simp only [Router.advance, String.reduceEq, or_self, or_false, false_or, if_false,
    reduceIte, h, hcls]

/-- C3 part (c) kernel: dispatching the cleaning job's completion on a
system whose seating station (c = 1, fully occupied, one waiting party,
one pending release) starts the waiting party at exactly the current
clock value — the cleaning completion instant. -/
theorem clean_departure_starts_waiting (sys : Sys) (dine cl : Station) (o1 o2 : Nat)
    (hclean : Sys.getStation sys "dine_in_clean" = some cl)
    (hclcls : cl.cls = StClass.base) (hclq : cl.queue = [])
    (hdine : Sys.getStation sys "dine_in" = some dine)
    (hdcls : dine.cls = StClass.dinein)
    (hp : dine.pending_releases = 1)
    (hq : dine.queue = [.order o2])
    (hs : dine.in_service = 1) (hc : dine.c = 1) :
    (Sys.on_departure sys "dine_in_clean" (.order o1)).log =
      sys.log ++ [(.order o2, sys.t)] := by
  have hne2 : ("dine_in" : String) ≠ "dine_in_clean" := by decide
  simp only [Sys.on_departure, hclean, hclcls]
  simp only [Server.on_departure, hclean, extract_wait_order_fst]
  rw [advance_clean_eq _ _ dine ?hd ?hdc]
  case hd =>
    simp only [Sys.getStation]
    rw [stations_find_set_other _ _ _ _ hne2]
    simpa only [Sys.getStation] using hdine
  case hdc => exact hdcls
  rw [restart_self_log _ _ ?hres]
  case hres =>
    intro st hst
    rw [(release_after_clean_starts _ dine o2 ?ha hdcls hp hq hs hc).2.2.2.2.2
      "dine_in_clean" (by decide)] at hst
    case ha =>
      simp only [Sys.getStation]
      rw [stations_find_set_other _ _ _ _ hne2]
      simpa only [Sys.getStation] using hdine
    simp only [Sys.getStation] at hst
    rw [stations_find_set_self] at hst
    injection hst with hst
    rw [← hst]
    simp [hclq]
  rw [(release_after_clean_starts _ dine o2 ?ha2 hdcls hp hq hs hc).1]
  case ha2 =>
    simp only [Sys.getStation]
    rw [stations_find_set_other _ _ _ _ hne2]
    simpa only [Sys.getStation] using hdine


/-- C3, parts composed over a run: a seating station with one table (c = 1)
holding one seated party, one party waiting in its queue and no pending
release, paired with an idle cleaning station; the FEL holds exactly the
seated party's own departure at time `t1`.  Running the event loop,  the
waiting party starts service exactly at `t1` plus the cleaning job's
drawn service time — never earlier than the cleaning duration after the
first party's own completion. -/
theorem dinein_run_timing (sys : Sys) (dine cl : Station) (o1 o2 : Nat)
    (t1 T : ℚ)
    (hdine : Sys.getStation sys "dine_in" = some dine)
    (hdcls : dine.cls = StClass.dinein)
    (hdc : dine.c = 1) (hds : dine.in_service = 1)
    (hdq : dine.queue = [.order o2])
    (hdp : dine.pending_releases = 0)
    (hdcln : dine.cleaning_server = "dine_in_clean")
    (hcl : Sys.getStation sys "dine_in_clean" = some cl)
    (hclname : cl.name = "dine_in_clean")
    (hclcls : cl.cls = StClass.base)
    (hclq : cl.queue = []) (hcls0 : cl.in_service = 0) (hclc : 0 < cl.c)
    (hclK : cl.K = none)
    (hfel : sys.fel = [{ t := t1, kind := "departure", server := "dine_in",
                         job := some (.order o1) }])
    (hT0 : sys.t ≤ T) (hT1 : t1 ≤ T) :
    (Sys.run 2 T sys).log = sys.log ++
      [(.order o1, t1),
       (.order o2, t1 + expovariate (1 / cl.service_rate) (sys.es sys.i))] := by
  rw [Sys.run]
  rw [if_pos (by rw [hfel]; exact ⟨by simp, hT0⟩)]
  have hstep1 : Sys.step sys =
      DineInServer.on_departure
        { sys with t := t1, fel := [] } "dine_in" (.order o1) := by
    rw [Sys.step, hfel]
    simp only [popMin]
    rw [Sys.dispatch]
    simp only [String.reduceEq, if_false, reduceIte]
    rw [Sys.on_departure]
    have : Sys.getStation { sys with t := t1, fel := ([] : List Ev) } "dine_in" = some dine := hdine
    rw [this]
    dsimp only
    rw [hdcls]
  rw [hstep1]
  have h1 := dinein_departure_effects { sys with t := t1, fel := ([] : List Ev) }
    dine cl o1 hdine hdcln hcl hclname hclcls hclq hcls0 hclc hclK
  set sysB := DineInServer.on_departure { sys with t := t1, fel := ([] : List Ev) }
    "dine_in" (.order o1) with hB
  rw [Sys.run]
  rw [if_pos (by rw [h1.1]; refine ⟨by simp, ?_⟩; rw [h1.2.2.1]; exact hT1)]
  rw [Sys.run]
  have hstep2 : Sys.step sysB =
      Sys.on_departure
        { sysB with
            t := t1 + expovariate (1 / cl.service_rate) (sys.es sys.i),
            fel := [] }
        "dine_in_clean" (.order o1) := by
    rw [Sys.step]
    rw [h1.1]
    simp only [List.nil_append, popMin]
    rw [Sys.dispatch]
    simp only [String.reduceEq, if_false, reduceIte]
  rw [hstep2]
  rw [clean_departure_starts_waiting _ dine.bump
      (Station.mark_busy { cl with queue := [], in_service := cl.in_service + 1 } t1)
      o1 o2 ?e1 ?e2 ?e3 ?e4 ?e5 ?e6 ?e7 ?e8 ?e9]
  case e1 => exact h1.2.2.2.2.2.2
  case e2 => simp [hclcls]
  case e3 => simp
  case e4 => exact h1.2.2.2.2.2.1
  case e5 => simp [Station.bump, hdcls]
  case e6 => simp [Station.bump, hdp]
  case e7 => simp [Station.bump, hdq]
  case e8 => simp [Station.bump, hds]
  case e9 => simp [Station.bump, hdc]
  rw [show ({ sysB with
      t := t1 + expovariate (1 / cl.service_rate) (sys.es sys.i),
      fel := ([] : List Ev) } : Sys).log = sysB.log from rfl]
  rw [h1.2.1]
  simp


theorem release_after_clean_pending_zero (sys : Sys) (name : String) (st : Station)
    (h : Sys.getStation sys name = some st) (hp : st.pending_releases = 0) :
    DineInServer.release_after_clean sys name = sys := by
  simp [DineInServer.release_after_clean, h, hp]

theorem release_after_clean_decrements (sys : Sys) (name : String) (st : Station)
    (h : Sys.getStation sys name = some st) (hp : st.pending_releases ≠ 0)
    (hq : st.queue = []) :
    Sys.getStation (DineInServer.release_after_clean sys name) name =
      some (Station.mark_busy
        { st with pending_releases := st.pending_releases - 1,
                  in_service := st.in_service - 1 } sys.t) := by
  simp only [DineInServer.release_after_clean, h]
  rw [if_neg hp]
  rw [tss_empty_queue _ _ _ _ _ (by simp [hq])]
  simp only [Sys.applyOut, Sys.getStation]
  rw [stations_find_set_self]

/-- C3.  Two-phase release: (1) the seating job's own departure handler
leaves the seating station's `in_service` (indeed its whole record except
the pending-release counter) unchanged while enqueueing — and, on an idle
cleaning station, immediately starting — the paired cleaning job; (2)
release_after_clean with no pending release is a silent no-op, and with a
pending release it decrements `in_service` (shown with an empty waiting
queue, where no restart masks the decrement); (3) in a run with one
seat (c = 1), a seated party completing at `t1` and a second party
waiting, the second party starts service exactly at `t1` plus the
cleaning job's drawn service time, never earlier. -/
theorem c3_two_phase_release :
    (∀ (sys : Sys) (dine cl : Station) (o1 : Nat),
      Sys.getStation sys "dine_in" = some dine →
      dine.cleaning_server = "dine_in_clean" →
      Sys.getStation sys "dine_in_clean" = some cl →
      cl.name = "dine_in_clean" → cl.cls = StClass.base →
      cl.queue = [] → cl.in_service = 0 → 0 < cl.c → cl.K = none →
      Sys.getStation (DineInServer.on_departure sys "dine_in" (.order o1)) "dine_in" =
        some { dine with pending_releases := dine.pending_releases + 1 } ∧
      (DineInServer.on_departure sys "dine_in" (.order o1)).fel = sys.fel ++
        [{ t := sys.t + expovariate (1 / cl.service_rate) (sys.es sys.i),
           kind := "departure", server := "dine_in_clean", job := some (.order o1) }]) ∧
    (∀ (sys : Sys) (name : String) (st : Station),
      Sys.getStation sys name = some st → st.pending_releases = 0 →
      DineInServer.release_after_clean sys name = sys) ∧
    (∀ (sys : Sys) (name : String) (st : Station),
      Sys.getStation sys name = some st → st.pending_releases ≠ 0 → st.queue = [] →
      Sys.getStation (DineInServer.release_after_clean sys name) name =
        some (Station.mark_busy
          { st with pending_releases := st.pending_releases - 1,
                    in_service := st.in_service - 1 } sys.t)) ∧
    (∀ (sys : Sys) (dine cl : Station) (o1 o2 : Nat) (t1 T : ℚ),
      Sys.getStation sys "dine_in" = some dine →
      dine.cls = StClass.dinein → dine.c = 1 → dine.in_service = 1 →
      dine.queue = [.order o2] → dine.pending_releases = 0 →
      dine.cleaning_server = "dine_in_clean" →
      Sys.getStation sys "dine_in_clean" = some cl →
      cl.name = "dine_in_clean" → cl.cls = StClass.base →
      cl.queue = [] → cl.in_service = 0 → 0 < cl.c → cl.K = none →
      sys.fel = [{ t := t1, kind := "departure", server := "dine_in",
                   job := some (.order o1) }] →
      sys.t ≤ T → t1 ≤ T →
      (Sys.run 2 T sys).log = sys.log ++
        [(.order o1, t1),
         (.order o2, t1 + expovariate (1 / cl.service_rate) (sys.es sys.i))]) := by
  refine ⟨?_, release_after_clean_pending_zero, release_after_clean_decrements, ?_⟩
  · intro sys dine cl o1 h1 h2 h3 h4 h5 h6 h7 h8 h9
    have := dinein_departure_effects sys dine cl o1 h1 h2 h3 h4 h5 h6 h7 h8 h9
    exact ⟨this.2.2.2.2.2.1, this.1⟩
  · intro sys dine cl o1 o2 t1 T h1 h2 h3 h4 h5 h6 h7 h8 h9 h10 h11 h12 h13 h14 h15 h16 h17
    exact dinein_run_timing sys dine cl o1 o2 t1 T h1 h2 h3 h4 h5 h6 h7 h8 h9 h10
      h11 h12 h13 h14 h15 h16 h17


/-- Concrete one-table seating scenario for the two-phase-release claim. -/
def c3WitDine : Station :=
  { name := "dine_in", c := 1, K := some 2, queue := [Job.order 2], in_service := 1,
    service_rate := 1, cls := .dinein, cleaning_server := "dine_in_clean" }

def c3WitClean : Station :=
  { name := "dine_in_clean", c := 1, K := none, queue := [], in_service := 0,
    service_rate := 50, cls := .base }

def c3WitSys : Sys :=
  { t := 0, es := fun _ => 1,
    fel := [{ t := 3, kind := "departure", server := "dine_in", job := some (.order 1) }],
    stations := [("dine_in", c3WitDine), ("dine_in_clean", c3WitClean)] }

def c3WitDine2 : Station := { c3WitDine with pending_releases := 1, queue := [] }

def c3WitSys2 : Sys :=
  { t := 7, es := fun _ => 1,
    stations := [("dine_in", c3WitDine2), ("dine_in_clean", c3WitClean)] }

/-- Closed instantiation of C3: a seated party departing at time 3 with a
second party waiting and cleaning service time 50; the second party starts
exactly at 3 + 50; release_after_clean with no pending release is a no-op
and with one pending release frees the seat. -/
theorem c3_two_phase_release_witness :
    (Sys.getStation (DineInServer.on_departure c3WitSys "dine_in" (.order 1)) "dine_in" =
        some { c3WitDine with pending_releases := c3WitDine.pending_releases + 1 } ∧
      (DineInServer.on_departure c3WitSys "dine_in" (.order 1)).fel = c3WitSys.fel ++
        [{ t := c3WitSys.t + expovariate (1 / c3WitClean.service_rate) (c3WitSys.es c3WitSys.i),
           kind := "departure", server := "dine_in_clean", job := some (.order 1) }]) ∧
    DineInServer.release_after_clean c3WitSys "dine_in" = c3WitSys ∧
    Sys.getStation (DineInServer.release_after_clean c3WitSys2 "dine_in") "dine_in" =
      some (Station.mark_busy
        { c3WitDine2 with pending_releases := c3WitDine2.pending_releases - 1,
                          in_service := c3WitDine2.in_service - 1 } c3WitSys2.t) ∧
    (Sys.run 2 100 c3WitSys).log = c3WitSys.log ++
      [(.order 1, 3),
       (.order 2, 3 + expovariate (1 / c3WitClean.service_rate) (c3WitSys.es c3WitSys.i))] := by
  refine ⟨?_, ?_, ?_, ?_⟩
  · exact c3_two_phase_release.1 c3WitSys c3WitDine c3WitClean 1
      rfl rfl rfl rfl rfl rfl rfl (by decide) rfl
  · exact c3_two_phase_release.2.1 c3WitSys "dine_in" c3WitDine rfl rfl
  · exact c3_two_phase_release.2.2.1 c3WitSys2 "dine_in" c3WitDine2 rfl
      (by decide) rfl
  · exact c3_two_phase_release.2.2.2 c3WitSys c3WitDine c3WitClean 1 2 3 100
      rfl rfl rfl rfl rfl rfl rfl rfl rfl rfl rfl rfl (by decide) rfl rfl
      (by simp [c3WitSys]) (by norm_num)


/-- Closed instantiation of C2: an order with three items, five kitchen
completions — the first completion does not admit at pack, and across the
five completions the order is admitted at pack exactly once. -/
theorem c2_join_synchronization_witness :
    (readyOf (Router.advance c2Sys "espresso" (.item (c2Item "espresso"))).orders 1 =
       some (0 + 1, 3) ∧
     countPackAdmits 1 (Router.advance c2Sys "espresso" (.item (c2Item "espresso"))) =
       countPackAdmits 1 c2Sys + (if 0 + 1 = 3 then 1 else 0)) ∧
    (0 = 0 → 1 ≤ 3 →
      countPackAdmits 1 (kitchenAdvances "espresso" (c2Item "espresso") 5 c2Sys) =
        countPackAdmits 1 c2Sys + (if 3 ≤ 5 then 1 else 0)) :=
  c2_join_synchronization "espresso" (c2Item "espresso") 1 c2Sys 0 3 5
    (Or.inl rfl) rfl (by decide) (by decide)

/- ------------------------------------------------------------------ -/
/- C4: batch depletion.                                                -/
/- ------------------------------------------------------------------ -/

theorem batch_tss_in_refill (s : Station) (ost : OStore) (now : ℚ) (es : Nat → ℚ)
    (i : Nat) (hr : s.in_refill = true) :
    BatchServer.try_start_service s ost now es i = { st := s, ost := ost, i := i } := by
  cases hq : s.queue with
  | nil => exact batch_tss_eq_nil s ost now es i hq
  | cons j rest =>
    rw [batch_tss_eq_cons s ost now es i j rest hq]
    by_cases hc : s.in_service < s.c
    · rw [if_pos hc, if_pos hr]
    · rw [if_neg hc]

theorem batch_tss_exhausted (s : Station) (ost : OStore) (now : ℚ) (es : Nat → ℚ)
    (i : Nat) (j : Job) (rest : List Job)
    (hq : s.queue = j :: rest) (hc : s.in_service < s.c)
    (hr : s.in_refill = false) (hz : s.remaining = 0) (hd : 0 < s.downtime) :
    BatchServer.try_start_service s ost now es i =
      { st := { s with in_refill := true }, ost := ost,
        evs := [{ t := now + s.downtime, kind := "timer", server := s.name,
                  timer_kind := "refill_done" }],
        i := i } := by
  rw [batch_tss_eq_cons s ost now es i j rest hq]
  rw [if_pos hc]
  rw [if_neg (by simp [hr])]
  rw [if_pos hz]
  simp only [BatchServer.schedule_refill, hr]
  rw [if_neg (by simp [hr]; linarith)]

/-- C4 (amended: the configured downtime must be positive — a BatchServer
constructed with downtime 0, which `max(0.0, downtime)` keeps, schedules
no timer when the batch is exhausted and suspends service forever, see the
counterexample).  For every BatchServer: no job begins service while a
refill is pending, even with free service slots; every service start
decrements the remaining batch counter by one (the ghost start log counts
the starts); when try_start_service reaches a waiting job with a free
slot, no refill pending, the batch exhausted and a positive downtime, it
schedules the deterministic downtime timer and suspends; and the
refill_done timer resets the counter to batch_size, clears the pending
flag and retries service, while other timer kinds are ignored. -/
theorem c4_batch_depletion_amended :
    (∀ (s : Station) (ost : OStore) (now : ℚ) (es : Nat → ℚ) (i : Nat),
      s.in_refill = true →
      BatchServer.try_start_service s ost now es i = { st := s, ost := ost, i := i }) ∧
    (∀ (s : Station) (ost : OStore) (now : ℚ) (es : Nat → ℚ) (i : Nat),
      (BatchServer.try_start_service s ost now es i).st.remaining +
        (BatchServer.try_start_service s ost now es i).log.length = s.remaining) ∧
    (∀ (s : Station) (ost : OStore) (now : ℚ) (es : Nat → ℚ) (i : Nat)
        (j : Job) (rest : List Job),
      s.queue = j :: rest → s.in_service < s.c →
      s.in_refill = false → s.remaining = 0 → 0 < s.downtime →
      BatchServer.try_start_service s ost now es i =
        { st := { s with in_refill := true }, ost := ost,
          evs := [{ t := now + s.downtime, kind := "timer", server := s.name,
                    timer_kind := "refill_done" }],
          i := i }) ∧
    (∀ (s : Station) (ost : OStore) (now : ℚ) (es : Nat → ℚ) (i : Nat),
      BatchServer.handle_timer s ost "refill_done" now es i =
        Station.try_start_service
          { s with in_refill := false, remaining := s.batch_size } ost now es i) ∧
    (∀ (s : Station) (ost : OStore) (kind : String) (now : ℚ) (es : Nat → ℚ) (i : Nat),
      kind ≠ "refill_done" →
      BatchServer.handle_timer s ost kind now es i = { st := s, ost := ost, i := i }) := by
  refine ⟨batch_tss_in_refill,
    (fun s ost now es i => (tss_batch_preserves s ost now es i).2.2.2),
    batch_tss_exhausted, ?_, ?_⟩
  · intro s ost now es i
    simp [BatchServer.handle_timer]
  · intro s ost kind now es i h
    simp [BatchServer.handle_timer, h]

/-- The batch station of the C4 counterexample: built by the BatchServer
constructor with batch_size 1 and downtime 0, fed two jobs at time 0 (the
first starts and exhausts the batch, the second waits) and then the
first's departure decrement at time 1 — leaving an exhausted batch, one
waiting job, a free slot and no pending refill. -/
def c4s0 : Station := BatchServer.init "espresso" 1 none 1 1 0

def c4s1 : Station :=
  (Server.enqueue c4s0 [] (.item { kind := "espresso" }) 0 (fun _ => 1) 0).2.st

def c4s2 : Station :=
  (Server.enqueue c4s1 [] (.item { kind := "espresso" }) 0 (fun _ => 1) 1).2.st

def c4s3 : Station := Station.mark_busy { c4s2 with in_service := c4s2.in_service - 1 } 1

/-- The explicit value of `c4s3`. -/
def c4s3lit : Station :=
  { name := "espresso", c := 1, K := none,
    queue := [.item { kind := "espresso", queue_entry_times := [("espresso", 0)] }],
    in_service := 0, busy_time := 1, last_change := 1, prev_in_service := 0,
    service_rate := 1, cls := .batch, batch_size := 1, downtime := 0,
    remaining := 0, in_refill := false }

theorem c4s1_eq : c4s1 =
    { c4s3lit with queue := [], in_service := 1, busy_time := 0, last_change := 0,
                   prev_in_service := 1 } := by
  simp only [c4s1, c4s0, BatchServer.init, Server.enqueue, Server.can_join,
    Station.try_start_service, batch_tss_eq_nil, BatchServer.schedule_refill,
    Server.draw_service, expovariate, Job.setQueueEntry, Job.setDuration, dictSet,
    Station.mark_busy, List.nil_append, reduceIte, not_true, if_false, if_true,
    max_self, one_div_one, div_one, zero_add, Nat.sub_self]
  rw [batch_tss_eq_cons _ _ _ _ _ _ [] rfl]
  simp [batch_tss_eq_nil, BatchServer.schedule_refill, Server.draw_service,
    expovariate, Job.setQueueEntry, Job.setDuration, dictSet, Station.mark_busy,
    c4s3lit]

theorem c4s3_eq : c4s3 = c4s3lit := by
  simp only [c4s3, c4s2, c4s1_eq, Server.enqueue, Server.can_join,
    Station.try_start_service]
  rw [batch_tss_eq_cons _ _ _ _ _ _ [] rfl]
  simp [c4s3lit, Station.mark_busy, Job.setQueueEntry, dictSet]

/-- Counterexample to C4 as stated: on the reachable downtime-0 state
`c4s3` — batch exhausted, a job waiting, a free service slot, no refill
pending — try_start_service schedules NO timer (and changes nothing), so
no "deterministic downtime timer" exists to fire, contradicting the claim
for this BatchServer. -/
theorem c4_batch_depletion_counterexample :
    c4s3.remaining = 0 ∧ c4s3.queue ≠ [] ∧ c4s3.in_service < c4s3.c ∧
    c4s3.in_refill = false ∧
    BatchServer.try_start_service c4s3 [] 1 (fun _ => 1) 2 =
      { st := c4s3, ost := [], i := 2 } := by
  refine ⟨by rw [c4s3_eq]; decide, by rw [c4s3_eq]; decide, by rw [c4s3_eq]; decide,
    by rw [c4s3_eq]; decide, ?_⟩
  rw [c4s3_eq]
  rw [batch_tss_eq_cons _ _ _ _ _ _ [] rfl]
  simp [BatchServer.schedule_refill, c4s3lit]

/-- Closed instantiation of C4 (amended) on concrete stations. -/
theorem c4_batch_depletion_amended_witness :
    (BatchServer.try_start_service ({ c4s3lit with in_refill := true }) [] 1 (fun _ => 1) 0 =
      { st := { c4s3lit with in_refill := true }, ost := [], i := 0 }) ∧
    ((BatchServer.try_start_service c4s3lit [] 1 (fun _ => 1) 0).st.remaining +
      (BatchServer.try_start_service c4s3lit [] 1 (fun _ => 1) 0).log.length =
        c4s3lit.remaining) ∧
    (BatchServer.try_start_service ({ c4s3lit with downtime := 100 }) [] 1 (fun _ => 1) 0 =
      { st := { ({ c4s3lit with downtime := 100 } : Station) with in_refill := true },
        ost := [],
        evs := [{ t := 1 + (100 : ℚ), kind := "timer", server := "espresso",
                  timer_kind := "refill_done" }],
        i := 0 }) ∧
    (BatchServer.handle_timer c4s3lit [] "refill_done" 1 (fun _ => 1) 0 =
      Station.try_start_service
        ({ c4s3lit with in_refill := false, remaining := c4s3lit.batch_size }) [] 1
        (fun _ => 1) 0) ∧
    (BatchServer.handle_timer c4s3lit [] "cleanup" 1 (fun _ => 1) 0 =
      { st := c4s3lit, ost := [], i := 0 }) := by
  refine ⟨?_, c4_batch_depletion_amended.2.1 c4s3lit [] 1 (fun _ => 1) 0, ?_, ?_, ?_⟩
  · exact c4_batch_depletion_amended.1 ({ c4s3lit with in_refill := true }) [] 1
      (fun _ => 1) 0 rfl
  · have := c4_batch_depletion_amended.2.2.1 ({ c4s3lit with downtime := 100 }) [] 1
      (fun _ => 1) 0 (.item { kind := "espresso", queue_entry_times := [("espresso", 0)] })
      [] rfl (by decide) rfl rfl (by norm_num)
    simpa [c4s3lit] using this
  · exact c4_batch_depletion_amended.2.2.2.1 c4s3lit [] 1 (fun _ => 1) 0
  · exact c4_batch_depletion_amended.2.2.2.2 c4s3lit [] "cleanup" 1 (fun _ => 1) 0
      (by decide)

/- ------------------------------------------------------------------ -/
/- C5: priority dequeue.                                               -/
/- ------------------------------------------------------------------ -/

/-- Boolean form of "the job's customer channel is `ch`" (the match test of
the inner loop of stations.PackServer._pop_next). -/
def channelMatches (ost : OStore) (ch : String) (x : Job) : Bool :=
  decide (jobChannel ost x = some ch)

theorem popFirstMatch_none_iff (ost : OStore) (ch : String) :
    ∀ q, popFirstMatch ost ch q = none ↔ q.any (channelMatches ost ch) = false := by
  intro q
  induction q with
  | nil => simp [popFirstMatch]
  | cons j rest ih =>
    by_cases hj : jobChannel ost j = some ch
    · simp [popFirstMatch, hj, channelMatches]
    · simp only [popFirstMatch, if_neg hj, List.any_cons, channelMatches]
      cases hm : popFirstMatch ost ch rest with
      | none =>
        rw [hm] at ih
        simp [hj, ← ih, hm]
      | some r =>
        cases r with
        | mk x rest' =>
          rw [hm] at ih
          simp [hj, ← ih, hm]

theorem popFirstMatch_some (ost : OStore) (ch : String) :
    ∀ q w q', popFirstMatch ost ch q = some (w, q') →
      q.find? (channelMatches ost ch) = some w ∧
        q' = q.eraseP (channelMatches ost ch) := by
  intro q
  induction q with
  | nil => intro w q' h; simp [popFirstMatch] at h
  | cons j rest ih =>
    intro w q' h
    simp only [popFirstMatch] at h
    by_cases hj : jobChannel ost j = some ch
    · rw [if_pos hj] at h
      injection h with h1
      injection h1 with h2 h3
      subst h2
      subst h3
      constructor
      · rw [List.find?_cons_of_pos _ (by simp [channelMatches, hj])]
      · rw [List.eraseP_cons_of_pos (by simp [channelMatches, hj])]
    · rw [if_neg hj] at h
      cases hm : popFirstMatch ost ch rest with
      | none => rw [hm] at h; cases h
      | some r =>
        cases r with
        | mk x rest' =>
          rw [hm] at h
          injection h with h1
          injection h1 with h2 h3
          subst h2
          subst h3
          obtain ⟨hf, he⟩ := ih x rest' hm
          constructor
          · rw [List.find?_cons_of_neg _ (by simp [channelMatches, hj])]
            exact hf
          · rw [List.eraseP_cons_of_neg (by simp [channelMatches, hj]), ← he]

theorem scanPriority_none_iff (ost : OStore) :
    ∀ pr q, scanPriority ost pr q = none ↔
      pr.find? (fun ch => q.any (channelMatches ost ch)) = none := by
  intro pr
  induction pr with
  | nil => intro q; simp [scanPriority]
  | cons ch chs ih =>
    intro q
    simp only [scanPriority]
    cases hm : popFirstMatch ost ch q with
    | none =>
      have ha := (popFirstMatch_none_iff ost ch q).mp hm
      rw [List.find?_cons_of_neg _ (by simp [ha])]
      exact ih q
    | some r =>
      have ha : q.any (channelMatches ost ch) = true := by
        by_contra hc
        rw [(popFirstMatch_none_iff ost ch q).mpr (by simpa using hc)] at hm
        cases hm
      rw [List.find?_cons_of_pos _ (by simp [ha])]
      simp

theorem scanPriority_some (ost : OStore) :
    ∀ pr q ch, pr.find? (fun c => q.any (channelMatches ost c)) = some ch →
      scanPriority ost pr q = popFirstMatch ost ch q := by
  intro pr
  induction pr with
  | nil => intro q ch h; simp at h
  | cons c chs ih =>
    intro q ch h
    simp only [scanPriority]
    by_cases ha : q.any (channelMatches ost c) = true
    · rw [List.find?_cons_of_pos _ (by simp [ha])] at h
      injection h with h1
      rw [← h1]
      cases hm : popFirstMatch ost c q with
      | none =>
        rw [(popFirstMatch_none_iff ost c q).mp hm] at ha
        cases ha
      | some r => rfl
    · rw [List.find?_cons_of_neg _ (by simp [ha])] at h
      rw [(popFirstMatch_none_iff ost c q).mpr (by simpa using ha)]
      exact ih q ch h

/-- Order store of the C5 example: order 1 from a walkin customer enqueued
first, order 2 from a drive_thru customer enqueued second. -/
def c5Ost : OStore :=
  [(1, { oid := 1, customer := { channel := "walkin", arrival_time := 0 }, items := [] }),
   (2, { oid := 2, customer := { channel := "drive_thru", arrival_time := 0 }, items := [] })]

/-- Pack station of the C5 example: priority [drive_thru, mobile], one free
service slot, the walkin order queued ahead of the drive_thru order. -/
def c5PackSt : Station :=
  { PackServer.init "pack" 1 none 1 ["drive_thru", "mobile"] with
      queue := [.order 1, .order 2] }

/-- C5: confirmed.  PackServer._pop_next implements the claimed dequeue
policy: (1) when no channel of the priority list has a match in the queue —
in particular when the priority list is empty — the FIFO head is dequeued;
(2) when some listed channel matches, the scan stops at the first listed
channel `ch` with any match and dequeues the earliest-enqueued job of that
channel (`find?` picks the first occurrence in queue order, which is arrival
order, and `eraseP` removes exactly it), so within a channel arrival order
is preserved; (3) PackServer.try_start_service serves the job returned by
_pop_next first; (4) on the spec's own example — priority [drive_thru,
mobile] against a walkin job enqueued before a drive_thru job — the
drive_thru job is dequeued next. -/
theorem c5_priority_dequeue :
    (∀ (ost : OStore) (pr : List String) (q : List Job) (j : Job) (rest : List Job),
      q = j :: rest →
      pr.find? (fun ch => q.any (channelMatches ost ch)) = none →
      PackServer.pop_next ost pr q = some (j, rest)) ∧
    (∀ (ost : OStore) (pr : List String) (q : List Job) (ch : String),
      q ≠ [] →
      pr.find? (fun ch => q.any (channelMatches ost ch)) = some ch →
      ∃ w, q.find? (channelMatches ost ch) = some w ∧
        PackServer.pop_next ost pr q =
          some (w, q.eraseP (channelMatches ost ch))) ∧
    (∀ (s : Station) (ost : OStore) (now : ℚ) (es : Nat → ℚ) (i : Nat)
        (a j : Job) (rest0 rest : List Job),
      s.queue = a :: rest0 → s.in_service < s.c → s.cls = .pack →
      PackServer.pop_next ost s.priority s.queue = some (j, rest) →
      ∃ tail, (Station.try_start_service s ost now es i).log =
        ((j.setDuration ost s.name (Server.draw_service s j (es i))).1, now) :: tail) ∧
    PackServer.pop_next c5Ost ["drive_thru", "mobile"] [.order 1, .order 2] =
      some (.order 2, [.order 1]) := by
  refine ⟨?_, ?_, ?_, ?_⟩
  · intro ost pr q j rest hq hf
    subst hq
    simp only [PackServer.pop_next]
    by_cases hpr : pr.isEmpty
    · rw [if_pos hpr]
    · rw [if_neg hpr, (scanPriority_none_iff ost pr (j :: rest)).mpr hf]
  · intro ost pr q ch hq hf
    have hs := scanPriority_some ost pr q ch hf
    have ha : q.any (channelMatches ost ch) = true := by
      have := List.find?_some hf
      simpa using this
    cases hm : popFirstMatch ost ch q with
    | none =>
      rw [(popFirstMatch_none_iff ost ch q).mp hm] at ha
      cases ha
    | some r =>
      cases r with
      | mk w q' =>
        obtain ⟨hfind, herase⟩ := popFirstMatch_some ost ch q w q' hm
        refine ⟨w, hfind, ?_⟩
        cases q with
        | nil => cases hq rfl
        | cons j rest =>
          simp only [PackServer.pop_next]
          have hpr : ¬ pr.isEmpty := by
            intro hc
            rw [List.isEmpty_iff] at hc
            subst hc
            simp at hf
          rw [if_neg hpr, hs, hm, ← herase]
  · intro s ost now es i a j rest0 rest hq hc hcls hp
    rw [tss_dispatch_pack _ _ _ _ _ hcls]
    rw [pack_tss_eq_some s ost now es i a rest0 hq hc j rest hp]
    exact ⟨_, rfl⟩
  · rfl

/-- Closed instantiation of C5 at concrete inputs (the empty-priority FIFO
fallback, the spec's walkin/drive_thru example, and the service start of the
dequeued job at the example pack station). -/
theorem c5_priority_dequeue_witness :
    PackServer.pop_next [] [] [Job.order 1] = some (.order 1, []) ∧
    (∃ w, ([Job.order 1, Job.order 2].find? (channelMatches c5Ost "drive_thru") = some w ∧
      PackServer.pop_next c5Ost ["drive_thru", "mobile"] [.order 1, .order 2] =
        some (w, [Job.order 1, Job.order 2].eraseP (channelMatches c5Ost "drive_thru")))) ∧
    (∃ tail, (Station.try_start_service c5PackSt c5Ost 0 (fun _ => 1) 0).log =
      (((Job.order 2).setDuration c5Ost "pack"
          (Server.draw_service c5PackSt (.order 2) 1)).1, 0) :: tail) := by
  refine ⟨?_, ?_, ?_⟩
  · exact c5_priority_dequeue.1 [] [] [Job.order 1] (.order 1) [] rfl rfl
  · exact c5_priority_dequeue.2.1 c5Ost ["drive_thru", "mobile"]
      [.order 1, .order 2] "drive_thru" (by simp) (by rfl)
  · exact c5_priority_dequeue.2.2.1 c5PackSt c5Ost 0 (fun _ => 1) 0
      (.order 1) (.order 2) [.order 2] [.order 1] rfl (by decide) rfl (by rfl)

/- ------------------------------------------------------------------ -/
/- C6: renege boundary.                                                -/
/- ------------------------------------------------------------------ -/

/-- C6: confirmed.  The renege predicate of network.Router._pickup_renege
and the shelf branch of Router.advance realise the claimed boundary: for an
order whose customer has a finite patience `p` and is dine-in or on the
mobile channel, a renege fires iff the pickup wait is strictly greater than
`p` (so a wait exactly equal to `p` does not renege); customers with no
patience, or neither dine-in nor mobile, never renege; and on a shelf
departure with `t_packed = tp` the wait is `max (t - tp) 0` (picked minus
packed, floored at zero): a true renege emits exactly the pickup_renege
note, a false one emits the pickup note and proceeds to post-pickup
routing. -/
theorem c6_renege_boundary :
    (∀ (cust : Customer) (w p : ℚ), cust.patience = some p →
      (cust.dine_in = true ∨ cust.channel = "mobile") →
      (Router.pickup_renege cust w = true ↔ p < w)) ∧
    (∀ (cust : Customer) (p : ℚ), cust.patience = some p →
      Router.pickup_renege cust p = false) ∧
    (∀ (cust : Customer) (w : ℚ), cust.patience = none →
      Router.pickup_renege cust w = false) ∧
    (∀ (cust : Customer) (w : ℚ), cust.dine_in = false → cust.channel ≠ "mobile" →
      Router.pickup_renege cust w = false) ∧
    (∀ (sys : Sys) (oid : Nat) (o : Order) (tp : ℚ),
      storeGet sys.orders oid = some o → o.t_packed = some tp →
      (Router.pickup_renege o.customer (max (sys.t - tp) 0) = true →
        Router.advance sys "shelf" (.order oid) =
          { sys with
            orders := storeSet sys.orders oid { o with t_picked := some sys.t },
            notes := .pickup_renege (.order oid) (max (sys.t - tp) 0) sys.t :: sys.notes }) ∧
      (Router.pickup_renege o.customer (max (sys.t - tp) 0) = false →
        Router.advance sys "shelf" (.order oid) =
          Router.post_pickup
            { sys with
              orders := storeSet sys.orders oid { o with t_picked := some sys.t },
              notes := .pickup (.order oid) (max (sys.t - tp) 0) sys.t :: sys.notes }
            oid)) := by
  refine ⟨?_, ?_, ?_, ?_, ?_⟩
  · intro cust w p hp hd
    simp only [Router.pickup_renege, hp]
    rw [if_neg (not_not_intro (by simpa using hd))]
    simp [gt_iff_lt]
  · intro cust p hp
    simp only [Router.pickup_renege, hp]
    split
    · rfl
    · simp
  · intro cust w hp
    simp only [Router.pickup_renege, hp]
    split
    · rfl
    · rfl
  · intro cust w hd hch
    simp only [Router.pickup_renege]
    rw [if_pos (by simp [hd, hch])]
  · intro sys oid o tp ho htp
    have hbr : Router.advance sys "shelf" (.order oid) =
        (let o1 : Order := { o with t_picked := some sys.t }
         let sys1 : Sys := { sys with orders := storeSet sys.orders oid o1 }
         let pickup_wait : ℚ := max (sys1.t - tp) 0
         if Router.pickup_renege o1.customer pickup_wait then
           { sys1 with
             notes := .pickup_renege (.order oid) pickup_wait sys1.t :: sys1.notes }
         else
           Router.post_pickup
             { sys1 with notes := .pickup (.order oid) pickup_wait sys1.t :: sys1.notes }
             oid) := by
      simp only [Router.advance, String.reduceEq, or_self, or_false, false_or,
        if_false, reduceIte]
      rw [ho]
      dsimp only
      rw [htp]
    constructor
    · intro hren
      rw [hbr]
      dsimp only
      rw [if_pos (by exact hren)]
    · intro hren
      rw [hbr]
      dsimp only
      rw [if_neg (by simp [hren])]

/-- Order of the C6 example: a mobile customer with patience 5 whose order
was packed at time 0. -/
def c6Order : Order :=
  { oid := 1,
    customer := { channel := "mobile", arrival_time := 0, patience := some 5 },
    items := [], t_packed := some 0 }

/-- C6 example system at time 6 (pickup wait 6 exceeds patience 5). -/
def c6Sys : Sys := { t := 6, es := fun _ => 1, orders := [(1, c6Order)] }

/-- C6 example system at time 5 (pickup wait exactly equal to patience). -/
def c6Sys5 : Sys := { t := 5, es := fun _ => 1, orders := [(1, c6Order)] }

/-- Closed instantiation of C6: a mobile customer with patience 5 reneges
at wait 6, does not at the exact boundary 5, never without patience, and a
walkin non-dine-in customer never reneges; shelf departures at times 6
and 5 of the example system take the renege and the normal-pickup branch
respectively. -/
theorem c6_renege_boundary_witness :
    (Router.pickup_renege { channel := "mobile", arrival_time := 0, patience := some 5 } 6 =
        true ↔ (5 : ℚ) < 6) ∧
    Router.pickup_renege { channel := "mobile", arrival_time := 0, patience := some 5 } 5 =
      false ∧
    Router.pickup_renege { channel := "mobile", arrival_time := 0 } 6 = false ∧
    Router.pickup_renege { channel := "walkin", arrival_time := 0, patience := some 5 } 6 =
      false ∧
    Router.advance c6Sys "shelf" (.order 1) =
      { c6Sys with
        orders := storeSet c6Sys.orders 1 { c6Order with t_picked := some c6Sys.t },
        notes := .pickup_renege (.order 1) (max (c6Sys.t - 0) 0) c6Sys.t :: c6Sys.notes } ∧
    Router.advance c6Sys5 "shelf" (.order 1) =
      Router.post_pickup
        { c6Sys5 with
          orders := storeSet c6Sys5.orders 1 { c6Order with t_picked := some c6Sys5.t },
          notes := .pickup (.order 1) (max (c6Sys5.t - 0) 0) c6Sys5.t :: c6Sys5.notes }
        1 := by
  refine ⟨?_, ?_, ?_, ?_, ?_, ?_⟩
  · exact c6_renege_boundary.1 _ 6 5 rfl (Or.inr rfl)
  · exact c6_renege_boundary.2.1 _ 5 rfl
  · exact c6_renege_boundary.2.2.1 _ 6 rfl
  · exact c6_renege_boundary.2.2.2.1 _ 6 rfl (by decide)
  · exact (c6_renege_boundary.2.2.2.2 c6Sys 1 c6Order 0 rfl rfl).1
      (by norm_num [Router.pickup_renege, c6Order, c6Sys])
  · exact (c6_renege_boundary.2.2.2.2 c6Sys5 1 c6Order 0 rfl rfl).2
      (by norm_num [Router.pickup_renege, c6Order, c6Sys5])

/- ------------------------------------------------------------------ -/
/- C7: service-rate priority.                                          -/
/- ------------------------------------------------------------------ -/

/-- Item of the C7 failing input: it carries its own service rate
`svc_params['rate'] = 1`. -/
def c7Item : Item := { kind := "espresso", svc_rate := some 1 }

/-- Station of the C7 failing input, configured with service_rate 2. -/
def c7St2 : Station := Server.init "espresso" 1 none 2

/-- The same station configured with service_rate 1. -/
def c7St1 : Station := Server.init "espresso" 1 none 1

/-- C7: refuted (code bug).  queues.Server.draw_service sets `rate = None`,
leaves the whole job-level `svc_params` branch commented out, and always
uses `1.0 / self.service_rate`, so the sampled duration is entirely
independent of the job (first conjunct).  On a job carrying
`svc_params['rate'] = 1`, the unit exponential sample 1 is stretched to 2
at a station with service_rate 2 and to 1 at service_rate 1 — the
station-level rate fully determines the draw and the job's own rate never
has priority, contradicting the claim (and the function's own
docstring). -/
theorem c7_draw_service_rate_priority_refuted :
    (∀ (s : Station) (j j' : Job) (e : ℚ),
      Server.draw_service s j e = Server.draw_service s j' e) ∧
    c7Item.svc_rate = some 1 ∧
    Server.draw_service c7St2 (.item c7Item) 1 = 2 ∧
    Server.draw_service c7St1 (.item c7Item) 1 = 1 ∧
    Server.draw_service c7St2 (.item c7Item) 1 ≠ expovariate 1 1 := by
  refine ⟨fun s j j' e => rfl, rfl, ?_, ?_, ?_⟩
  · norm_num [Server.draw_service, expovariate, Server.init, c7St2]
  · norm_num [Server.draw_service, expovariate, Server.init, c7St1]
  · norm_num [Server.draw_service, expovariate, Server.init, c7St2]

/- ------------------------------------------------------------------ -/
/- C8: fatal-error handling.                                           -/
/- ------------------------------------------------------------------ -/

/-- A malformed event of the C8 counterexample: kind "cleanup" is none of
arrival/departure/timer. -/
def c8Ev : Ev := { t := 1, kind := "cleanup" }

/-- A later well-formed timer event, to observe the run continuing past the
malformed one. -/
def c8Ev2 : Ev := { t := 2, kind := "timer", server := "nowhere" }

/-- C8 counterexample system: the malformed event followed by the timer. -/
def c8Sys : Sys := { t := 0, es := fun _ => 1, fel := [c8Ev, c8Ev2] }

/-- An idle dine-in station with no pending release. -/
def c8Dine : Station := DineInServer.init "dine_in" "dine_in_clean" 1 none 1

/-- C8 counterexample system for release_after_clean with zero pending
releases. -/
def c8DSys : Sys := { t := 0, es := fun _ => 1, stations := [("dine_in", c8Dine)] }

/-- Counterexample to C8 as stated: dispatching the unknown-kind event
leaves the state untouched (no exception, no trace), the run continues
past it to the next event and terminates normally with the clock at 2 and
nothing notified; and release_after_clean with zero pending releases
returns the state unchanged.  Nothing is fatal: both are silently
ignored. -/
theorem c8_fatal_errors_counterexample :
    Sys.dispatch { c8Sys with t := 1, fel := [c8Ev2] } c8Ev =
      { c8Sys with t := 1, fel := [c8Ev2] } ∧
    (Sys.run 2 10 c8Sys).t = 2 ∧
    (Sys.run 2 10 c8Sys).fel = [] ∧
    (Sys.run 2 10 c8Sys).notes = [] ∧
    DineInServer.release_after_clean c8DSys "dine_in" = c8DSys := by
  refine ⟨?_, ?_, ?_, ?_, ?_⟩
  · simp [Sys.dispatch, c8Ev, String.reduceEq]
  · rfl
  · rfl
  · rfl
  · exact release_after_clean_pending_zero c8DSys "dine_in" c8Dine rfl rfl

/-- C8 amended.  Dispatching an event whose kind is not arrival, departure
or timer is a silent no-op: Env.run_until's if/elif chain has no else
branch, so the event is consumed, the clock still advances to its
timestamp, and the loop simply continues; likewise
DineInServer.release_after_clean returns immediately, changing nothing,
when the pending-release counter is zero.  Neither situation is treated as
a fatal error. -/
theorem c8_fatal_errors_amended :
    (∀ (sys : Sys) (ev : Ev),
      ev.kind ≠ "arrival" → ev.kind ≠ "departure" → ev.kind ≠ "timer" →
      Sys.dispatch sys ev = sys) ∧
    (∀ (sys : Sys) (ev : Ev) (rest : List Ev),
      popMin sys.fel = some (ev, rest) →
      ev.kind ≠ "arrival" → ev.kind ≠ "departure" → ev.kind ≠ "timer" →
      Sys.step sys = { sys with t := ev.t, fel := rest }) ∧
    (∀ (sys : Sys) (name : String) (st : Station),
      Sys.getStation sys name = some st → st.pending_releases = 0 →
      DineInServer.release_after_clean sys name = sys) := by
  refine ⟨?_, ?_, release_after_clean_pending_zero⟩
  · intro sys ev h1 h2 h3
    simp [Sys.dispatch, h1, h2, h3]
  · intro sys ev rest hpop h1 h2 h3
    simp only [Sys.step, hpop]
    simp [Sys.dispatch, h1, h2, h3]

/-- Closed instantiation of C8 (amended): the unknown-kind event is a no-op
under dispatch, one step of the counterexample system only pops it and
advances the clock, and release_after_clean on the idle dine-in system is
the identity. -/
theorem c8_fatal_errors_amended_witness :
    Sys.dispatch c8DSys c8Ev = c8DSys ∧
    Sys.step c8Sys = { c8Sys with t := c8Ev.t, fel := [c8Ev2] } ∧
    DineInServer.release_after_clean c8DSys "dine_in" = c8DSys := by
  refine ⟨?_, ?_, ?_⟩
  · exact c8_fatal_errors_amended.1 c8DSys c8Ev (by decide) (by decide) (by decide)
  · exact c8_fatal_errors_amended.2.1 c8Sys c8Ev [c8Ev2] (by decide)
      (by decide) (by decide) (by decide)
  · exact c8_fatal_errors_amended.2.2 c8DSys "dine_in" c8Dine rfl rfl

/- ------------------------------------------------------------------ -/
/- C9: the departure sequence.                                         -/
/- ------------------------------------------------------------------ -/

theorem dictPop_fst (k : String) : ∀ d : List (String × ℚ), (dictPop d k).1 = dictGet d k := by
  intro d
  induction d with
  | nil => rfl
  | cons p rest ih =>
    cases p with
    | mk k' v' =>
      simp only [dictPop, dictGet, List.find?]
      by_cases h : k' = k
      · simp [h]
      · simp only [h, if_neg h, decide_eq_true_eq]
        rw [ih]
        simp [dictGet, h]

theorem clamp_eq_max (w : ℚ) : (if 0 < w then w else 0) = max 0 w := by
  by_cases h : 0 < w
  · rw [if_pos h, max_eq_right h.le]
  · rw [if_neg h, max_eq_left (not_lt.mp h)]

/-- The completion sequence exactly as the spec's `on_completion` describes
it, built from the separately defined sub-operations: decrement
`in_service` and update busy accounting (mark_busy), extract and emit the
clamped wait notification, delegate to Router.advance, then call
try_start_service again (restart_self re-reads the station the Router may
have changed). -/
def on_completion_spec (sys : Sys) (name : String) (j : Job) (st : Station) : Sys :=
  let st1 := Station.mark_busy { st with in_service := st.in_service - 1 } sys.t
  let w := Server.extract_wait sys.orders j name sys.t
  let notes1 :=
    match w.1 with
    | some wv => Note.wait name w.2.1 wv sys.t :: sys.notes
    | none => sys.notes
  let sys1 := { sys with stations := stationsSet sys.stations name st1,
                         orders := w.2.2, notes := notes1 }
  Server.restart_self (Router.advance sys1 name w.2.1) name

/-- C9: confirmed.  For a base-class station, the departure handler follows
exactly the claimed sequence (decrement, busy-accounting update, clamped
wait notification, Router.advance, then try_start_service), the emitted
wait equals `max 0 (now - sampled service duration - admission timestamp)`
whenever the job carries both bookkeeping entries for the station, and the
decrement/busy update are visible on the station record. -/
theorem c9_on_departure_sequence :
    (∀ (sys : Sys) (name : String) (j : Job) (st : Station),
      Sys.getStation sys name = some st → st.cls = StClass.base →
      Sys.on_departure sys name j = on_completion_spec sys name j st) ∧
    (∀ (ost : OStore) (j : Job) (name : String) (now t_arr st_dur : ℚ),
      dictGet (j.dicts ost).1 name = some t_arr →
      dictGet (j.dicts ost).2 name = some st_dur →
      (Server.extract_wait ost j name now).1 = some (max 0 (now - st_dur - t_arr))) ∧
    (∀ (st : Station) (now : ℚ),
      (Station.mark_busy { st with in_service := st.in_service - 1 } now).in_service =
          st.in_service - 1 ∧
      (Station.mark_busy { st with in_service := st.in_service - 1 } now).last_change =
          now ∧
      (Station.mark_busy { st with in_service := st.in_service - 1 } now).prev_in_service =
          st.in_service - 1 ∧
      (Station.mark_busy { st with in_service := st.in_service - 1 } now).busy_time =
          (if 0 < now - st.last_change then
            st.busy_time + (st.prev_in_service : ℚ) * (now - st.last_change)
          else st.busy_time)) := by
  refine ⟨?_, ?_, ?_⟩
  · intro sys name j st hst hcls
    simp only [Sys.on_departure]
    rw [hst]
    dsimp only
    rw [hcls]
    simp only [Server.on_departure]
    rw [hst]
    dsimp only
    rw [on_completion_spec]
  · intro ost j name now t_arr st_dur h1 h2
    have hne1 : ((j.dicts ost).1.isEmpty) = false := by
      cases hd : (j.dicts ost).1 with
      | nil => rw [hd] at h1; simp [dictGet] at h1
      | cons a l => simp
    have hne2 : ((j.dicts ost).2.isEmpty) = false := by
      cases hd : (j.dicts ost).2 with
      | nil => rw [hd] at h2; simp [dictGet] at h2
      | cons a l => simp
    simp only [Server.extract_wait]
    rw [if_neg (by simp [hne1, hne2])]
    dsimp only
    rw [dictPop_fst, dictPop_fst, h1, h2]
    dsimp only
    rw [clamp_eq_max]
  · intro st now
    simp only [Station.mark_busy]
    by_cases h : 0 < now - st.last_change
    · simp [h]
    · simp [h]

/-- Item of the C9 witness: admitted to station "front" at time 0 with a
sampled service duration of 3. -/
def c9Item : Item :=
  { kind := "combo", queue_entry_times := [("front", 0)],
    service_durations := [("front", 3)] }

/-- The C9 base station and a system holding it at time 2 (so the raw wait
2 - 3 - 0 is negative and must clamp to zero). -/
def c9St : Station := Server.init "front" 1 none 1

def c9Sys : Sys := { t := 2, es := fun _ => 1, stations := [("front", c9St)] }

/-- Closed instantiation of C9: the dispatch-and-sequence equality on the
concrete one-station system, the clamped wait of the concrete item at
times 2 (negative raw wait, clamps to 0) and 5 (raw wait 2), and the
decrement/busy-accounting observables on the concrete station. -/
theorem c9_on_departure_sequence_witness :
    Sys.on_departure c9Sys "front" (.item c9Item) =
      on_completion_spec c9Sys "front" (.item c9Item) c9St ∧
    (Server.extract_wait [] (.item c9Item) "front" 2).1 = some (max 0 (2 - 3 - 0)) ∧
    (Server.extract_wait [] (.item c9Item) "front" 5).1 = some (max 0 (5 - 3 - 0)) ∧
    (Station.mark_busy { c9St with in_service := c9St.in_service - 1 } 2).in_service =
      c9St.in_service - 1 := by
  refine ⟨?_, ?_, ?_, ?_⟩
  · exact c9_on_departure_sequence.1 c9Sys "front" (.item c9Item) c9St rfl rfl
  · exact c9_on_departure_sequence.2.1 [] (.item c9Item) "front" 2 0 3 rfl rfl
  · exact c9_on_departure_sequence.2.1 [] (.item c9Item) "front" 5 0 3 rfl rfl
  · exact (c9_on_departure_sequence.2.2 c9St 2).1

/- ------------------------------------------------------------------ -/
/- C10: the PickupServer import failure.                               -/
/- ------------------------------------------------------------------ -/

/-- C10: confirmed.  stations.py line 21 names PickupServer in its import
list from queues.py, but PickupServer is bound nowhere among the top-level
attributes of queues.py (which defines only Event, Env, Server and
BatchServer besides its own imports), so loading the stations module
raises ImportError on that name; simulation.py (the module of the public
entry point run_one_day) imports make_stations from stations and therefore
fails the same way, before any simulation state exists. -/
theorem c10_pickupserver_import_failure :
    import_stations_module = .error "PickupServer" ∧
    queues_module_attrs.contains "PickupServer" = false ∧
    stations_imports_from_queues.contains "PickupServer" = true ∧
    import_simulation_module = .error "PickupServer" := by
  refine ⟨rfl, by decide, by decide, rfl⟩

end Sim
